import Mathlib

/-!
The relay loop of ptypipe and its resize-sequence interceptor.

A shallow embedding of `src/lib/ptypipe/ptypipe.c`.  The C locals of `main`
become the fields of `Relay`; the kernel objects the loop talks to (the pty
geometry, the two sinks, the results of `read`, `write` and `wait4`) are made
explicit as fields of `Relay` and of `Event`.

Conventions:
* every C `int` is an `Int`; the arithmetic on `dtterm_arg` and
  `dtterm_state` wraps at 32 bits;
* a byte is a `Nat`; `buffer` is the whole 1024-byte array, and every index
  read and every `memmove` and `memset` on it is logged in `Relay.trace`;
* `read(fd, buffer, count)` transfers at most `count` of the bytes that are
  ready; `write` accepts the first `n` bytes of the buffer when it returns
  `n ≥ 0`;
* `assert` is live (`NDEBUG` is not defined in the source);
* each `goto` target is a function: `rescan` for `rescan_buffer`,
  `write_child` for `write_child`; `continue` is `Outcome.running`.
-/

namespace Ptypipe

/-! ## Data model -/

/-- The capacity of the relay buffer, `sizeof(buffer)` for `char buffer[1024]`. -/
def BUFFER_SIZE : Int := 1024

/-- Two's-complement wrap-around of a 32-bit C `int`. -/
def wrap32 (x : Int) : Int := (x + 2147483648) % 4294967296 - 2147483648

/-- Conversion of an `int` to the `unsigned short` fields of `struct winsize`. -/
def to_ushort (x : Int) : Nat := (x % 65536).toNat

/-- The `struct winsize` of `<sys/ioctl.h>`. -/
structure Winsize where
  ws_row : Nat
  ws_col : Nat
  ws_xpixel : Nat
  ws_ypixel : Nat
deriving DecidableEq

/-- One access to `buffer` made by the interceptor or by a shift. -/
inductive Access where
  /-- The expression `buffer[i]`. -/
  | load (i : Int)
  /-- The call `memmove(buffer + dst, buffer + src, len)`. -/
  | move (dst src len : Int)
  /-- The call `memset(buffer + dst, 0, len)`. -/
  | fill (dst len : Int)
deriving DecidableEq

/-- The two descriptors the relay writes to. -/
inductive Fd where
  | stdout
  | child_tty
deriving DecidableEq

/-- The locals of `main` that live across loop iterations, followed by the
part of the outside world the loop acts on. -/
structure Relay where
  /-- The array `char buffer[1024]`, all of it. -/
  buffer : List Nat
  buffer_n : Int
  dtterm_begin : Int
  dtterm_state : Int
  dtterm_arg : Int
  console_size : Winsize
  child_pid : Int
  /-- The geometry the kernel holds for the pty. -/
  pty_size : Winsize
  /-- Whether `ioctl` on `child_tty_fd` succeeds. -/
  ioctl_ok : Bool
  /-- The rows and columns of every `TIOCSWINSZ` request, newest first. -/
  resizes : List (Nat × Nat)
  /-- The bytes accepted by `write(child_tty_fd, ...)`, in order. -/
  to_child : List Nat
  /-- The bytes accepted by `write(STDOUT_FILENO, ...)`, in order. -/
  to_stdout : List Nat
  /-- Whether `kill(child_pid, SIGHUP)` was called. -/
  hangup_sent : Bool
  /-- The buffer accesses made so far, newest first. -/
  trace : List Access
deriving DecidableEq

/-- What `read(fd, buffer, count)` finds. -/
inductive ReadResult where
  /-- The call fails, `rc < 0`; the flag says whether `errno == EIO`. -/
  | error (eio : Bool)
  /-- The bytes the descriptor has ready; `read` transfers at most `count`. -/
  | data (avail : List Nat)
deriving DecidableEq

/-- What the outside world does during one iteration of `for (;;)`. -/
structure Event where
  /-- Whether `FD_ISSET(child_tty_fd, &readfds)` holds, with the result of the read. -/
  pty_ready : Option ReadResult
  /-- The successive return values of `write(STDOUT_FILENO, ...)`. -/
  stdout_writes : List Int
  /-- Whether `FD_ISSET(STDIN_FILENO, &readfds)` holds, with the result of the read. -/
  stdin_ready : Option ReadResult
  /-- The successive return values of `write(child_tty_fd, ...)`. -/
  child_writes : List Int
  /-- The return value of `wait4`. -/
  wait_rc : Int
  /-- The status `wait4` stores. -/
  wait_status : Int
deriving DecidableEq

/-- How a piece of the loop body ends. -/
inductive Outcome where
  /-- Control goes on (to the next statement, or to the next iteration). -/
  | running (st : Relay)
  /-- The process called `exit(code)`. -/
  | exited (code : Int) (st : Relay)
  /-- The process called `abort()` after "Wrote too many bytes!". -/
  | aborted (st : Relay)
  /-- The check `assert (buffer_n == 0)` failed. -/
  | assert_failed (st : Relay)
  /-- A `while (buffer_n > 0)` loop is still retrying when the listed
  results of `write` are used up. -/
  | blocked (st : Relay)
  /-- The bound on the number of `goto rescan_buffer` jumps was used up. -/
  | out_of_fuel (st : Relay)
deriving DecidableEq

/-- The state an outcome carries. -/
def Outcome.state : Outcome → Relay
  | .running st => st
  | .exited _ st => st
  | .aborted st => st
  | .assert_failed st => st
  | .blocked st => st
  | .out_of_fuel st => st

/-- The three ways out of the `for (i = dtterm_begin; ...)` loop. -/
inductive Exit where
  /-- The jump `goto rescan_buffer` after a sequence was stripped. -/
  | rescan_buffer
  /-- The jump `goto write_child`. -/
  | write_child
  /-- The loop condition `i < buffer_n` became false. -/
  | loop_end
deriving DecidableEq

/-! ## Memory primitives -/

/-- The expression `buffer[i]`. -/
def load (buffer : List Nat) (i : Int) : Nat := buffer.getD i.toNat 0

/-- The call `memmove(buffer + dst, buffer + src, len)`. -/
def memmove (buffer : List Nat) (dst src len : Int) : List Nat :=
  buffer.take dst.toNat ++ (buffer.drop src.toNat).take len.toNat
    ++ buffer.drop (dst.toNat + len.toNat)

/-- The call `memset(buffer + dst, 0, len)`. -/
def memset (buffer : List Nat) (dst len : Int) : List Nat :=
  buffer.take dst.toNat ++ List.replicate len.toNat 0
    ++ buffer.drop (dst.toNat + len.toNat)

/-- The sink takes the bytes a `write` accepted. -/
def accept (fd : Fd) (bytes : List Nat) (st : Relay) : Relay :=
  match fd with
  | .stdout => { st with to_stdout := st.to_stdout ++ bytes }
  | .child_tty => { st with to_child := st.to_child ++ bytes }

/-- The call `read(fd, buffer, sizeof(buffer) - buffer_n)` when it succeeds:
the bytes land at the front of `buffer`; the count read is returned. -/
def read_into (st : Relay) (avail : List Nat) : Int × Relay :=
  let bytes := avail.take (BUFFER_SIZE - st.buffer_n).toNat
  ((bytes.length : Int),
    { st with buffer := bytes ++ st.buffer.drop bytes.length })

/-! ## `do_exit` -/

/-- The argument `do_exit` passes to `exit`, given what `wait4` returned. -/
def do_exit (child_pid rc status : Int) : Int :=
  if rc ≠ child_pid then -1 else status

/-- The exit code a parent observes for a process that called `exit(v)`. -/
def exit_code (v : Int) : Int := v % 256

/-- The raw wait status of a child that terminated normally with `code`. -/
def W_EXITCODE (code : Int) : Int := code * 256

/-! ## The retry loop `while (buffer_n > 0)` (lines 315-336 and 557-581) -/

/-- The loop `while (buffer_n > 0) { n = write(fd, buffer, buffer_n); ... }`,
driven by the successive return values of `write`. -/
def write_loop (fd : Fd) : List Int → Relay → Outcome
  | [], st => if st.buffer_n > 0 then .blocked st else .running st
  | n :: rest, st =>
    if st.buffer_n > 0 then
      if n < 0 then
        write_loop fd rest st
      else if n < st.buffer_n then
        let st1 := accept fd (st.buffer.take n.toNat) st
        let st2 := { st1 with
          buffer := memmove st1.buffer 0 n (st1.buffer_n - n)
          trace := .move 0 n (st1.buffer_n - n) :: st1.trace }
        let st3 := { st2 with buffer_n := st2.buffer_n - n }
        let st4 := { st3 with
          buffer := memset st3.buffer st3.buffer_n (BUFFER_SIZE - st3.buffer_n)
          trace := .fill st3.buffer_n (BUFFER_SIZE - st3.buffer_n) :: st3.trace }
        write_loop fd rest st4
      else if n = st.buffer_n then
        let st1 := accept fd (st.buffer.take n.toNat) st
        write_loop fd rest { st1 with buffer_n := 0 }
      else
        .aborted st
    else .running st

/-! ## The interceptor (lines 373-546) -/

/-- The loop `for (i = 0; i < buffer_n; i++)` of lines 388-394, with `k`
iterations left before `i` reaches `buffer_n`. -/
def find_esc : Nat → Relay → Int → Relay
  | 0, st, _ => st
  | k + 1, st, i =>
    let st1 := { st with trace := .load i :: st.trace }
    if load st.buffer i = 0x1B then { st1 with dtterm_begin := i }
    else find_esc k st1 (i + 1)

/-- The request `ioctl(child_tty_fd, TIOCGWINSZ, &console_size)`. -/
def ioctl_get (st : Relay) : Relay :=
  if st.ioctl_ok then { st with console_size := st.pty_size } else st

/-- The request `ioctl(child_tty_fd, TIOCSWINSZ, &console_size)`. -/
def ioctl_set (st : Relay) : Relay :=
  { st with
    pty_size := if st.ioctl_ok then st.console_size else st.pty_size
    resizes := (st.console_size.ws_row, st.console_size.ws_col) :: st.resizes }

/-- The body of `case 't'` in state 4 (lines 459-511). -/
def strip (st : Relay) (i : Int) : Relay :=
  let st1 := { st with
    console_size := { st.console_size with ws_col := to_ushort st.dtterm_arg } }
  let st2 := ioctl_set st1
  let i := i + 1
  let st3 := { st2 with
    buffer := memmove st2.buffer st2.dtterm_begin i (st2.buffer_n - i)
    trace := .move st2.dtterm_begin i (st2.buffer_n - i) :: st2.trace }
  let st4 := { st3 with buffer_n := st3.buffer_n - (i - st3.dtterm_begin) }
  let st5 := { st4 with
    buffer := memset st4.buffer st4.buffer_n (BUFFER_SIZE - st4.buffer_n)
    trace := .fill st4.buffer_n (BUFFER_SIZE - st4.buffer_n) :: st4.trace }
  { st5 with dtterm_state := 0, dtterm_arg := 0, dtterm_begin := -1 }

/-- The loop `for (i = dtterm_begin; i < buffer_n; i++) switch (buffer[i])`
of lines 406-524, with `k` iterations left before `i` reaches `buffer_n`. -/
def parse_loop : Nat → Relay → Int → Exit × Relay
  | 0, st, _ => (.loop_end, st)
  | k + 1, st0, i =>
    let b := load st0.buffer i
    let st := { st0 with trace := .load i :: st0.trace }
    if b = 0x1B then
      if st.dtterm_state = 0 then
        parse_loop k { st with dtterm_state := 1 } (i + 1)
      else (.write_child, st)
    else if b = 91 then
      if st.dtterm_state = 1 then
        parse_loop k { st with dtterm_state := 2 } (i + 1)
      else (.write_child, st)
    else if 48 ≤ b ∧ b ≤ 57 then
      if st.dtterm_state ≥ 2 ∨ st.dtterm_state ≤ 4 then
        let arg := wrap32 (st.dtterm_arg * 10)
        let arg := wrap32 (arg + ((b : Int) - 48))
        parse_loop k { st with dtterm_arg := arg } (i + 1)
      else (.write_child, st)
    else if b = 59 then
      if st.dtterm_state = 2 ∧ st.dtterm_arg ≠ 8 then (.write_child, st)
      else
        let st1 :=
          if st.dtterm_state = 3 then
            { st with console_size :=
                { st.console_size with ws_row := to_ushort st.dtterm_arg } }
          else st
        parse_loop k
          { st1 with dtterm_state := wrap32 (st1.dtterm_state + 1), dtterm_arg := 0 }
          (i + 1)
    else if b = 116 then
      if st.dtterm_state = 4 then (.rescan_buffer, strip st i)
      else (.write_child, st)
    else (.write_child, st)

/-- The code from the label `write_child` to the end of the branch
(lines 544-581). -/
def write_child (ws : List Int) (st : Relay) : Outcome :=
  write_loop .child_tty ws { st with dtterm_state := 0, dtterm_begin := -1 }

/-- The code from the label `rescan_buffer` to the end of the branch
(lines 373-581); `fuel` bounds the number of `goto rescan_buffer` jumps. -/
def rescan (ws : List Int) : Nat → Relay → Outcome
  | 0, st => .out_of_fuel st
  | fuel + 1, st =>
    let st1 :=
      if st.dtterm_begin = -1 then find_esc st.buffer_n.toNat st 0 else st
    if st1.dtterm_begin ≥ 0 then
      let st2 := ioctl_get st1
      let st3 := { st2 with dtterm_arg := 0 }
      match parse_loop (st3.buffer_n - st3.dtterm_begin).toNat st3 st3.dtterm_begin with
      | (.rescan_buffer, st4) => rescan ws fuel st4
      | (.write_child, st4) => write_child ws st4
      | (.loop_end, st4) =>
        if st4.buffer_n = 1 then
          let st5 := { st4 with trace := .load 0 :: st4.trace }
          if load st4.buffer 0 = 0x1B then write_child ws st5
          else .running st5
        else .running st4
    else write_child ws st1

/-! ## One iteration of `for (;;)` (lines 274-585) -/

/-- The branch `if (FD_ISSET(child_tty_fd, &readfds))` (lines 292-338). -/
def pty_side (st : Relay) (ev : Event) : Outcome :=
  match ev.pty_ready with
  | none => .running st
  | some (.error eio) =>
    if eio then .exited (do_exit st.child_pid ev.wait_rc ev.wait_status) st
    else .running st
  | some (.data avail) =>
    let (rc, st1) := read_into st avail
    if rc = 0 then .exited (do_exit st.child_pid ev.wait_rc ev.wait_status) st1
    else write_loop .stdout ev.stdout_writes { st1 with buffer_n := rc }

/-- The branch `if (FD_ISSET(STDIN_FILENO, &readfds))` (lines 346-583). -/
def stdin_side (st : Relay) (ev : Event) : Outcome :=
  match ev.stdin_ready with
  | none => .running st
  | some (.error eio) =>
    if eio then
      .exited (do_exit st.child_pid ev.wait_rc ev.wait_status)
        { st with hangup_sent := true }
    else .running st
  | some (.data avail) =>
    let (rc, st1) := read_into st avail
    if rc = 0 then .running st1
    else
      let st2 := { st1 with buffer_n := rc }
      rescan ev.child_writes (st2.buffer_n.toNat + 1) st2

/-- One iteration of the main loop. -/
def step (st : Relay) (ev : Event) : Outcome :=
  match pty_side st ev with
  | .running st1 =>
    if st1.buffer_n = 0 then stdin_side st1 ev else .assert_failed st1
  | o => o

/-- The main loop over a list of events; it stops at the first iteration
that does not come back to the top of the loop. -/
def run : Relay → List Event → Outcome
  | st, [] => .running st
  | st, ev :: evs =>
    match step st ev with
    | .running st1 => run st1 evs
    | o => o

/-- The state of `main` on entry to the loop, for a given content of the
uninitialised locals. -/
def initial (buffer : List Nat) (console_size pty_size : Winsize) (child_pid : Int)
    (ioctl_ok : Bool) : Relay :=
  { buffer := buffer, buffer_n := 0, dtterm_begin := -1, dtterm_state := 0,
    dtterm_arg := 0, console_size := console_size, child_pid := child_pid,
    pty_size := pty_size, ioctl_ok := ioctl_ok, resizes := [], to_child := [],
    to_stdout := [], hangup_sent := false, trace := [] }

/-- An event in which only the external input is readable. -/
def stdin_event (chunk : List Nat) (ws : List Int) : Event :=
  { pty_ready := none, stdout_writes := [], stdin_ready := some (.data chunk),
    child_writes := ws, wait_rc := 0, wait_status := 0 }

/-- A concrete start state: zeroed buffer, an 80x24 pty, working ioctl. -/
def boot : Relay :=
  initial (List.replicate 1024 0) ⟨0, 0, 0, 0⟩ ⟨24, 80, 0, 0⟩ 4242 true

/-! ## Vocabulary of the properties -/

/-- The bytes a descriptor has accepted so far. -/
def sink (fd : Fd) (st : Relay) : List Nat :=
  match fd with
  | .stdout => st.to_stdout
  | .child_tty => st.to_child

/-- The state right after a successful `read` of `chunk` and the assignment
`buffer_n = rc`. -/
def after_read (st : Relay) (chunk : List Nat) : Relay :=
  { (read_into st chunk).2 with buffer_n := (read_into st chunk).1 }

/-- A decimal numeral: a non-empty string of the ASCII digits. -/
def IsNumeral (ds : List Nat) : Prop := ds ≠ [] ∧ ∀ d ∈ ds, 48 ≤ d ∧ d ≤ 57

instance (ds : List Nat) : Decidable (IsNumeral ds) := by
  unfold IsNumeral; infer_instance

/-- The number a string of ASCII digits denotes. -/
def decval (ds : List Nat) : Nat :=
  List.foldl (fun (a : Nat) (d : Nat) => a * 10 + (d - 48)) 0 ds

/-- The resize sequence `ESC [ 8 ; rows ; cols t` for two numerals. -/
def resize_seq (rs cs : List Nat) : List Nat :=
  [27, 91, 56, 59] ++ rs ++ [59] ++ cs ++ [116]

/-- The parser is idle and the buffer is empty: the situation at the top
of the loop when nothing is held. -/
def Idle (st : Relay) : Prop :=
  st.buffer_n = 0 ∧ st.dtterm_begin = -1 ∧ st.dtterm_state = 0

/-- The value of `dtterm_arg` after the digits `ds`, starting from `a`,
when nothing overflows. -/
def accum (a : Int) (ds : List Nat) : Int :=
  List.foldl (fun (a : Int) (d : Nat) => a * 10 + ((d : Int) - 48)) a ds

/-- The trace after `n` consecutive loads `buffer[i]`, `buffer[i+1]`, ... -/
def loads (i : Int) : Nat → List Access → List Access
  | 0, tr => tr
  | n + 1, tr => loads (i + 1) n (.load i :: tr)

/-- What one stripped resize sequence changes: `st2` holds `content` in the
buffer, is idle again, and has asked for the geometry `r` by `c`;
everything else is as in `st1`. -/
def Stripped (st1 st2 : Relay) (content : List Nat) (r c : Nat) : Prop :=
  (∃ junk, st2.buffer = content ++ junk) ∧ st2.buffer_n = content.length
  ∧ st2.dtterm_begin = -1 ∧ st2.dtterm_state = 0
  ∧ st2.resizes = (r, c) :: st1.resizes
  ∧ (st1.ioctl_ok = true → st2.pty_size.ws_row = r ∧ st2.pty_size.ws_col = c)
  ∧ st2.ioctl_ok = st1.ioctl_ok
  ∧ st2.to_child = st1.to_child ∧ st2.to_stdout = st1.to_stdout

/-- The state after the scan of lines 388-394 has skipped `n` bytes and
found ESC at offset `n`. -/
def found (st : Relay) (n : Nat) : Relay :=
  { st with trace := .load n :: loads 0 n st.trace, dtterm_begin := n }

/-- The state on entry to the loop of lines 406-524 when ESC was found at
offset `n`: the geometry has been fetched and `dtterm_arg` cleared. -/
def armed (st : Relay) (n : Nat) : Relay :=
  { (ioctl_get (found st n)) with dtterm_arg := 0 }

/-- The states `st1` and `st2` agree on the buffer and on the outside world
(they may differ in the parser fields, `console_size` and the trace). -/
def SameData (st1 st2 : Relay) : Prop :=
  st2.buffer = st1.buffer ∧ st2.buffer_n = st1.buffer_n
  ∧ st2.resizes = st1.resizes ∧ st2.pty_size = st1.pty_size
  ∧ st2.ioctl_ok = st1.ioctl_ok
  ∧ st2.to_child = st1.to_child ∧ st2.to_stdout = st1.to_stdout

/-- Whether the state machine of lines 413-522, in state `state` with
argument `arg`, aborts the candidate at one of the bytes `bytes` (it reaches
`goto write_child` there), rather than completing a sequence or running out
of bytes. -/
def rejects : Int → Int → List Nat → Bool
  | _, _, [] => false
  | state, arg, b :: bs =>
    if b = 27 then
      if state = 0 then rejects 1 arg bs else true
    else if b = 91 then
      if state = 1 then rejects 2 arg bs else true
    else if 48 ≤ b ∧ b ≤ 57 then
      rejects state (wrap32 (wrap32 (arg * 10) + ((b : Int) - 48))) bs
    else if b = 59 then
      if state = 2 ∧ arg ≠ 8 then true else rejects (wrap32 (state + 1)) 0 bs
    else if b = 116 then
      if state = 4 then false else true
    else true

/-- A string the interceptor forwards as it stands: it has no ESC byte, or
the candidate that starts at its first ESC is aborted before the string
ends. -/
def PassesThrough (B : List Nat) : Prop :=
  27 ∉ B ∨ ∃ B1 B2, B = B1 ++ 27 :: B2 ∧ 27 ∉ B1 ∧ rejects 1 0 B2 = true

/-- Resize sequences back to back, one for each pair of numerals. -/
def resize_chunk : List (List Nat × List Nat) → List Nat
  | [] => []
  | p :: ps => resize_seq p.1 p.2 ++ resize_chunk ps

/-- The rows and columns a pair of numerals denotes. -/
def geometry (p : List Nat × List Nat) : Nat × Nat := (decval p.1, decval p.2)

/-- Whether the outcome is `running`. -/
def Outcome.is_running : Outcome → Bool
  | .running _ => true
  | _ => false

/-- The access stays inside the array: an index is in `[0, 1024)`, and a
range of `len` bytes starting at an offset ends at or before offset 1024. -/
def Access.in_bounds : Access → Prop
  | .load i => 0 ≤ i ∧ i < BUFFER_SIZE
  | .move dst src len =>
    0 ≤ dst ∧ 0 ≤ src ∧ 0 ≤ len ∧ dst + len ≤ BUFFER_SIZE ∧ src + len ≤ BUFFER_SIZE
  | .fill dst len => 0 ≤ dst ∧ 0 ≤ len ∧ dst + len ≤ BUFFER_SIZE

/-- The buffer bounds invariant. -/
def Inv (st : Relay) : Prop :=
  st.buffer.length = 1024 ∧ 0 ≤ st.buffer_n ∧ st.buffer_n ≤ BUFFER_SIZE
  ∧ ∀ a ∈ st.trace, a.in_bounds

/-- Whether the outcome is `out_of_fuel`. -/
def Outcome.is_out_of_fuel : Outcome → Bool
  | .out_of_fuel _ => true
  | _ => false

/-- Whether the outcome is `assert_failed`. -/
def Outcome.is_assert_failed : Outcome → Bool
  | .assert_failed _ => true
  | _ => false

/-- An event in which the pty is readable and delivers `out`, which standard
output takes in one `write`, and the external input delivers `chunk`. -/
def both_event (out chunk : List Nat) (ws : List Int) : Event :=
  { pty_ready := some (.data out), stdout_writes := [(out.length : Int)],
    stdin_ready := some (.data chunk), child_writes := ws,
    wait_rc := 0, wait_status := 0 }

/-- The exit code observed for the relay, when the outcome is an `exit`. -/
def Outcome.observed_exit : Outcome → Option Int
  | .exited code _ => some (exit_code code)
  | _ => none

/-- An event in which the pty reports end of file and `wait4` returns the
child with the raw status `status`. -/
def eof_event (child_pid status : Int) : Event :=
  { pty_ready := some (.data []), stdout_writes := [], stdin_ready := none,
    child_writes := [], wait_rc := child_pid, wait_status := status }

/-! ## Arithmetic and memory lemmas -/

theorem wrap32_of_range {x : Int} (h1 : -2147483648 ≤ x) (h2 : x < 2147483648) :
    wrap32 x = x := by
  unfold wrap32; omega

theorem load_drop {buffer rest : List Nat} {p b : Nat}
    (h : buffer.drop p = b :: rest) : load buffer (p : Int) = b := by
  have h1 : (buffer.drop p)[0]? = some b := by rw [h]; simp
  rw [List.getElem?_drop] at h1
  simp only [Nat.add_zero] at h1
  simp [load, List.getD_eq_getElem?_getD, h1]

theorem drop_succ_of_drop {buffer rest : List Nat} {p b : Nat}
    (h : buffer.drop p = b :: rest) : buffer.drop (p + 1) = rest := by
  have : buffer.drop (p + 1) = (buffer.drop p).drop 1 := by
    rw [List.drop_drop, Nat.add_comm]
  rw [this, h]; rfl

theorem memmove_mid (A S B J : List Nat) :
    memmove (A ++ (S ++ (B ++ J))) A.length (A.length + S.length) B.length
      = A ++ (B ++ (A ++ (S ++ (B ++ J))).drop (A.length + B.length)) := by
  have e : ((A.length : Int) + (S.length : Int)).toNat = A.length + S.length := by omega
  simp only [memmove, Int.toNat_ofNat, e]
  rw [List.take_left', ← List.append_assoc A S, List.drop_left', List.take_left', List.append_assoc]
  all_goals simp

theorem memset_keep (X Y : List Nat) (len : Int) :
    memset (X ++ Y) X.length len
      = X ++ (List.replicate len.toNat 0 ++ (X ++ Y).drop (X.length + len.toNat)) := by
  simp only [memset, Int.toNat_ofNat]
  rw [List.take_left', List.append_assoc]
  rfl


@[simp] theorem accept_buffer (fd : Fd) (bs : List Nat) (st : Relay) :
    (accept fd bs st).buffer = st.buffer := by cases fd <;> rfl

@[simp] theorem accept_buffer_n (fd : Fd) (bs : List Nat) (st : Relay) :
    (accept fd bs st).buffer_n = st.buffer_n := by cases fd <;> rfl

@[simp] theorem accept_trace (fd : Fd) (bs : List Nat) (st : Relay) :
    (accept fd bs st).trace = st.trace := by cases fd <;> rfl

@[simp] theorem sink_accept (fd : Fd) (bs : List Nat) (st : Relay) :
    sink fd (accept fd bs st) = sink fd st ++ bs := by cases fd <;> rfl

theorem memmove_front (c j : List Nat) (m : Nat) (h : m ≤ c.length) :
    memmove (c ++ j) 0 (m : Int) ((c.length : Int) - m)
      = c.drop m ++ (c ++ j).drop (c.length - m) := by
  have := memmove_mid [] (c.take m) (c.drop m) j
  simp only [List.length_nil, List.length_take, List.length_drop, Nat.min_eq_left h,
    List.nil_append, ← List.append_assoc, List.take_append_drop, Nat.zero_add] at this
  have e : ((c.length : Int) - (m : Int)) = ((c.length - m : Nat) : Int) := by omega
  rw [e]
  simpa using this

/-! ## The retry loop delivers the buffer -/

theorem write_loop_delivers (fd : Fd) (ws : List Int) :
    ∀ (st st' : Relay) (chunk : List Nat),
      (∃ junk, st.buffer = chunk ++ junk) → st.buffer_n = chunk.length →
      write_loop fd ws st = .running st' →
      sink fd st' = sink fd st ++ chunk ∧ st'.buffer_n = 0 := by
  induction ws with
  | nil =>
    intro st st' chunk _ hn hrun
    simp only [write_loop] at hrun
    split at hrun
    · cases hrun
    · cases hrun
      have : chunk = [] := by
        apply List.eq_nil_of_length_eq_zero; omega
      subst this
      simp at hn
      simp [hn]
  | cons n rest ih =>
    intro st st' chunk hb hn hrun
    obtain ⟨junk, hb⟩ := hb
    simp only [write_loop] at hrun
    split at hrun
    · rename_i hpos
      split at hrun
      · exact ih st st' chunk ⟨junk, hb⟩ hn hrun
      · rename_i hn0
        obtain ⟨m, rfl⟩ := Int.eq_ofNat_of_zero_le (not_lt.mp hn0)
        split at hrun
        · rename_i hlt
          have hm : m ≤ chunk.length := by omega
          have e : ((chunk.length : Int) - (m : Int)) = ((chunk.drop m).length : Int) := by
            simp only [List.length_drop]; omega
          have := ih _ st' (chunk.drop m) ?_ ?_ hrun
          · cases fd <;>
            · simp only [sink, accept, hb, Int.toNat_ofNat, List.append_assoc] at this ⊢
              rw [List.take_append_of_le_length hm, List.take_append_drop] at this
              exact this
          · simp only [accept_buffer, accept_buffer_n, hb, hn, Int.ofNat_eq_coe]
            rw [memmove_front chunk junk m hm, e, memset_keep]
            exact ⟨_, rfl⟩
          · simp only [accept_buffer_n, hn, Int.ofNat_eq_coe]
            exact e
        · split at hrun
          · rename_i heq
            have hm : m = chunk.length := by omega
            have := ih _ st' [] ⟨st.buffer, ?_⟩ ?_ hrun
            · cases fd <;>
              · simp only [sink, accept, hb, Int.toNat_ofNat, List.append_nil] at this ⊢
                rw [hm, List.take_left'] at this
                · exact this
                · rfl
            · simp
            · simp
          · cases hrun
    · cases hrun
      have : chunk = [] := by
        apply List.eq_nil_of_length_eq_zero; omega
      subst this
      simp at hn
      simp [hn]

theorem write_loop_full (fd : Fd) (st : Relay) :
    ∃ st', write_loop fd [st.buffer_n] st = .running st' := by
  simp only [write_loop]
  split
  · rename_i h
    simp [show ¬ st.buffer_n < 0 from by omega]
  · exact ⟨_, rfl⟩

/-- The fields the retry loop never touches. -/
theorem write_loop_frame (fd : Fd) (ws : List Int) :
    ∀ (st : Relay) (o : Outcome), write_loop fd ws st = o →
      o.state.dtterm_begin = st.dtterm_begin ∧ o.state.dtterm_state = st.dtterm_state
      ∧ o.state.resizes = st.resizes ∧ o.state.pty_size = st.pty_size
      ∧ o.state.ioctl_ok = st.ioctl_ok
      ∧ (fd = .child_tty → o.state.to_stdout = st.to_stdout)
      ∧ (fd = .stdout → o.state.to_child = st.to_child) := by
  induction ws with
  | nil =>
    intro st o h
    simp only [write_loop] at h
    split at h <;> subst h <;> simp [Outcome.state]
  | cons n rest ih =>
    intro st o h
    simp only [write_loop] at h
    split at h
    · split at h
      · exact ih st o h
      · split at h
        · have := ih _ o h
          cases fd <;> simpa [accept] using this
        · split at h
          · have := ih _ o h
            cases fd <;> simpa [accept] using this
          · subst h; simp [Outcome.state]
    · subst h; simp [Outcome.state]

/-! ## Single steps of the interceptor -/

theorem load_at_front {buffer ds : List Nat} {i : Int} {d : Nat} (hi : 0 ≤ i)
    (h : (d :: ds) <+: buffer.drop i.toNat) : load buffer i = d := by
  obtain ⟨rest, h⟩ := h
  obtain ⟨p, rfl⟩ := Int.eq_ofNat_of_zero_le hi
  exact @load_drop buffer (ds ++ rest) p d (by simpa using h.symm)

theorem front_tail {buffer ds : List Nat} {i : Int} {d : Nat} (hi : 0 ≤ i)
    (h : (d :: ds) <+: buffer.drop i.toNat) : ds <+: buffer.drop (i + 1).toNat := by
  obtain ⟨rest, h⟩ := h
  obtain ⟨p, rfl⟩ := Int.eq_ofNat_of_zero_le hi
  have e : ((p : Int) + 1).toNat = p + 1 := by omega
  rw [e, @drop_succ_of_drop buffer (ds ++ rest) p d (by simpa using h.symm)]
  exact List.prefix_append _ _

theorem find_esc_skip (A : List Nat) (hA : 27 ∉ A) :
    ∀ (st : Relay) (i : Int) (k : Nat), 0 ≤ i → A <+: st.buffer.drop i.toNat →
      find_esc (A.length + k) st i
        = find_esc k { st with trace := loads i A.length st.trace } (i + A.length) := by
  induction A with
  | nil => intro st i k _ _; simp [loads]
  | cons a A ih =>
    intro st i k hi h
    have hl : (a :: A).length + k = (A.length + k) + 1 := by simp; omega
    have ha : load st.buffer i = a := load_at_front hi h
    have hne : a ≠ 27 := fun e => hA (by simp [e])
    have h2 := ih (fun e => hA (by simp [e]))
      { st with trace := .load i :: st.trace } (i + 1) k (by omega) (front_tail hi h)
    rw [hl]
    simp only [find_esc, ha, hne, if_false]
    rw [h2]
    simp only [loads, List.length_cons]
    congr 1
    push_cast; omega

theorem find_esc_hit (st : Relay) (i : Int) (k : Nat) (h : load st.buffer i = 27) :
    find_esc (k + 1) st i
      = { st with trace := .load i :: st.trace, dtterm_begin := i } := by
  simp [find_esc, h]

theorem parse_esc (st : Relay) (i : Int) (k : Nat)
    (h : load st.buffer i = 27) (hs : st.dtterm_state = 0) :
    parse_loop (k + 1) st i
      = parse_loop k { st with trace := .load i :: st.trace, dtterm_state := 1 } (i + 1) := by
  simp [parse_loop, h, hs]

theorem parse_bracket (st : Relay) (i : Int) (k : Nat)
    (h : load st.buffer i = 91) (hs : st.dtterm_state = 1) :
    parse_loop (k + 1) st i
      = parse_loop k { st with trace := .load i :: st.trace, dtterm_state := 2 } (i + 1) := by
  simp [parse_loop, h, hs]

theorem parse_digit (st : Relay) (i : Int) (k d : Nat)
    (h : load st.buffer i = d) (hd : 48 ≤ d ∧ d ≤ 57) :
    parse_loop (k + 1) st i
      = parse_loop k { st with trace := .load i :: st.trace,
                               dtterm_arg := wrap32 (wrap32 (st.dtterm_arg * 10) + ((d : Int) - 48)) }
          (i + 1) := by
  have h1 : d ≠ 27 := by omega
  have h2 : d ≠ 91 := by omega
  have h3 : st.dtterm_state ≥ 2 ∨ st.dtterm_state ≤ 4 := by omega
  simp [parse_loop, h, h1, h2, hd, h3]

theorem parse_semi (st : Relay) (i : Int) (k : Nat)
    (h : load st.buffer i = 59) (hs : ¬ (st.dtterm_state = 2 ∧ st.dtterm_arg ≠ 8)) :
    parse_loop (k + 1) st i
      = parse_loop k
          { st with
            trace := .load i :: st.trace
            console_size :=
              if st.dtterm_state = 3 then
                { st.console_size with ws_row := to_ushort st.dtterm_arg }
              else st.console_size
            dtterm_state := wrap32 (st.dtterm_state + 1)
            dtterm_arg := 0 }
          (i + 1) := by
  by_cases h3 : st.dtterm_state = 3
  · simp [parse_loop, h, h3]
  · simp [parse_loop, h, hs, h3]

theorem parse_t (st : Relay) (i : Int) (k : Nat)
    (h : load st.buffer i = 116) (hs : st.dtterm_state = 4) :
    parse_loop (k + 1) st i
      = (.rescan_buffer, strip { st with trace := .load i :: st.trace } i) := by
  simp [parse_loop, h, hs]

/-! ## Runs of digits -/

theorem accum_ge (ds : List Nat) (hd : ∀ d ∈ ds, 48 ≤ d ∧ d ≤ 57) :
    ∀ a : Int, 0 ≤ a → a ≤ accum a ds := by
  induction ds with
  | nil => intro a _; simp [accum]
  | cons d ds ih =>
    intro a ha
    have h1 := hd d (by simp)
    have := ih (fun x hx => hd x (by simp [hx])) (a * 10 + ((d : Int) - 48)) (by omega)
    simp only [accum, List.foldl_cons] at this ⊢
    omega

theorem accum_cast (ds : List Nat) (hd : ∀ d ∈ ds, 48 ≤ d ∧ d ≤ 57) :
    ∀ n : Nat, accum (n : Int) ds
      = ((List.foldl (fun (a : Nat) (d : Nat) => a * 10 + (d - 48)) n ds : Nat) : Int) := by
  induction ds with
  | nil => intro n; simp [accum]
  | cons d ds ih =>
    intro n
    have h1 := hd d (by simp)
    have := ih (fun x hx => hd x (by simp [hx])) (n * 10 + (d - 48))
    simp only [accum, List.foldl_cons] at this ⊢
    rw [← this]
    congr 1
    omega

theorem accum_zero (ds : List Nat) (hd : ∀ d ∈ ds, 48 ≤ d ∧ d ≤ 57) :
    accum 0 ds = (decval ds : Int) := by
  simpa [decval] using accum_cast ds hd 0

theorem drop_add_of_drop {buffer X rest : List Nat} {p : Nat}
    (h : buffer.drop p = X ++ rest) : buffer.drop (p + X.length) = rest := by
  have : buffer.drop (p + X.length) = (buffer.drop p).drop X.length := by
    rw [List.drop_drop, Nat.add_comm]
  rw [this, h, List.drop_left]

theorem parse_digits (ds : List Nat) (hd : ∀ d ∈ ds, 48 ≤ d ∧ d ≤ 57) :
    ∀ (st : Relay) (i : Int) (k : Nat), 0 ≤ i → ds <+: st.buffer.drop i.toNat →
      0 ≤ st.dtterm_arg → accum st.dtterm_arg ds < 2147483648 →
      parse_loop (ds.length + k) st i
        = parse_loop k { st with trace := loads i ds.length st.trace,
                                 dtterm_arg := accum st.dtterm_arg ds }
            (i + ds.length) := by
  induction ds with
  | nil => intro st i k _ _ _ _; simp [accum, loads]
  | cons d ds ih =>
    intro st i k hi h ha hlt
    have hl : (d :: ds).length + k = (ds.length + k) + 1 := by simp; omega
    have h1 := hd d (by simp)
    have hds : ∀ x ∈ ds, 48 ≤ x ∧ x ≤ 57 := fun x hx => hd x (by simp [hx])
    have hge := accum_ge ds hds (st.dtterm_arg * 10 + ((d : Int) - 48)) (by omega)
    have hlt2 : accum (st.dtterm_arg * 10 + ((d : Int) - 48)) ds < 2147483648 := by
      simpa [accum] using hlt
    have hw : wrap32 (wrap32 (st.dtterm_arg * 10) + ((d : Int) - 48))
        = st.dtterm_arg * 10 + ((d : Int) - 48) := by
      rw [wrap32_of_range (x := st.dtterm_arg * 10) (by omega) (by omega)]
      exact wrap32_of_range (by omega) (by omega)
    have h2 := ih hds
      { st with trace := .load i :: st.trace,
                dtterm_arg := st.dtterm_arg * 10 + ((d : Int) - 48) }
      (i + 1) k (by omega) (front_tail hi h) (by simp; omega) hlt2
    rw [hl, parse_digit st i _ d (load_at_front hi h) h1, hw, h2]
    simp only [loads, List.length_cons, accum, List.foldl_cons]
    congr 1
    push_cast; omega

theorem to_ushort_cast (n : Nat) (h : n < 65536) : to_ushort (n : Int) = n := by
  unfold to_ushort; omega

theorem front_drop_add {buffer X Y : List Nat} {i : Int} (hi : 0 ≤ i)
    (h : (X ++ Y) <+: buffer.drop i.toNat) : Y <+: buffer.drop (i + X.length).toNat := by
  obtain ⟨rest, h⟩ := h
  obtain ⟨p, rfl⟩ := Int.eq_ofNat_of_zero_le hi
  have e : ((p : Int) + (X.length : Int)).toNat = p + X.length := by omega
  rw [e, @drop_add_of_drop buffer X (Y ++ rest) p (by simpa using h.symm)]
  exact List.prefix_append _ _

theorem front_head {buffer X Y : List Nat} {n : Nat}
    (h : (X ++ Y) <+: buffer.drop n) : X <+: buffer.drop n :=
  (List.prefix_append X Y).trans h

/-! ## A whole resize sequence -/

theorem parse_resize (rs cs : List Nat) (hrs : IsNumeral rs) (hcs : IsNumeral cs)
    (hr : decval rs < 65536) (hc : decval cs < 65536)
    (st : Relay) (i : Int) (k : Nat) (hi : 0 ≤ i)
    (h : resize_seq rs cs <+: st.buffer.drop i.toNat)
    (hs : st.dtterm_state = 0) (ha : st.dtterm_arg = 0) :
    ∃ tr, parse_loop ((resize_seq rs cs).length + k) st i
      = (.rescan_buffer,
          strip { st with
                  trace := tr
                  dtterm_state := 4
                  dtterm_arg := decval cs
                  console_size := { st.console_size with ws_row := decval rs } }
            (i + 1 + 1 + 1 + 1 + rs.length + 1 + cs.length)) := by
  have h0 : (27 :: 91 :: 56 :: 59 :: (rs ++ 59 :: (cs ++ [116]))) <+: st.buffer.drop i.toNat := by
    simpa [resize_seq] using h
  have hl : (resize_seq rs cs).length + k
      = (((rs.length + ((cs.length + (k + 1)) + 1)) + 1 + 1) + 1) + 1 := by
    simp [resize_seq]; omega
  have h1 := front_tail hi h0
  have h2 := front_tail (by omega) h1
  have h3 := front_tail (by omega) h2
  have h4 := front_tail (by omega) h3
  have h5 := front_drop_add (by omega) h4
  have h6 := front_tail (by omega) h5
  have h7 := front_drop_add (by omega) h6
  have ar := accum_zero rs hrs.2
  have ac := accum_zero cs hcs.2
  apply Exists.intro
  case h =>
    rw [hl, parse_esc st i _ (load_at_front hi h0) hs]
    rw [parse_bracket]; rotate_left
    · exact load_at_front (by omega) h1
    · rfl
    dsimp only
    rw [parse_digit _ _ _ 56]; rotate_left
    · exact load_at_front (by omega) h2
    · decide
    dsimp only
    rw [parse_semi]; rotate_left
    · exact load_at_front (by omega) h3
    · simp [ha, wrap32]
    dsimp only
    rw [parse_digits rs hrs.2]; rotate_left
    · omega
    · exact front_head h4
    · simp
    · simp only [ar]; omega
    dsimp only
    rw [parse_semi]; rotate_left
    · exact load_at_front (by omega) h5
    · simp [wrap32]
    dsimp only
    rw [parse_digits cs hcs.2]; rotate_left
    · omega
    · exact front_head h6
    · simp
    · simp only [ar]; omega
    dsimp only
    rw [parse_t]; rotate_left
    · exact load_at_front (by omega) h7
    · simp [wrap32]
    dsimp only
    simp only [ar, ac, ha, to_ushort_cast _ hr]
    norm_num [wrap32]
    rfl

/-! ## Stripping -/

theorem strip_spec (S : Relay) (idx : Int) (A X B J : List Nat)
    (hb : S.buffer = A ++ (X ++ (B ++ J))) (hbeg : S.dtterm_begin = A.length)
    (hidx : idx + 1 = A.length + X.length)
    (hn : S.buffer_n = A.length + X.length + B.length) :
    Stripped S (strip S idx) (A ++ B) S.console_size.ws_row (to_ushort S.dtterm_arg) := by
  have e1 : S.buffer_n - (idx + 1) = (B.length : Int) := by omega
  have e2 : S.buffer_n - (idx + 1 - S.dtterm_begin) = ((A ++ B).length : Int) := by
    simp only [List.length_append]; push_cast; omega
  have e3 : memmove S.buffer S.dtterm_begin (idx + 1) (S.buffer_n - (idx + 1))
      = (A ++ B) ++ (A ++ (X ++ (B ++ J))).drop (A.length + B.length) := by
    rw [e1, hb, hbeg, hidx, memmove_mid, List.append_assoc]
  refine ⟨?_, ?_, rfl, rfl, rfl, ?_, rfl, rfl, rfl⟩
  · simp only [strip, ioctl_set]
    rw [e2, e3, memset_keep]
    exact ⟨_, rfl⟩
  · simp only [strip, ioctl_set]
    exact e2
  · intro hok
    simp [strip, ioctl_set, hok]

theorem armed_fields (st : Relay) (n : Nat) :
    (armed st n).buffer = st.buffer ∧ (armed st n).buffer_n = st.buffer_n
    ∧ (armed st n).dtterm_begin = n ∧ (armed st n).dtterm_state = st.dtterm_state
    ∧ (armed st n).dtterm_arg = 0 ∧ (armed st n).resizes = st.resizes
    ∧ (armed st n).ioctl_ok = st.ioctl_ok ∧ (armed st n).to_child = st.to_child
    ∧ (armed st n).to_stdout = st.to_stdout ∧ (armed st n).pty_size = st.pty_size := by
  simp only [armed, ioctl_get, found]
  split <;> simp

theorem rescan_found (ws : List Int) (f : Nat) (st : Relay) (A R : List Nat)
    (hA : 27 ∉ A) (hb : st.buffer = A ++ 27 :: R)
    (hn : (A.length : Int) < st.buffer_n) (hbeg : st.dtterm_begin = -1) :
    rescan ws (f + 1) st
      = match parse_loop (st.buffer_n - A.length).toNat (armed st A.length) A.length with
        | (.rescan_buffer, st4) => rescan ws f st4
        | (.write_child, st4) => write_child ws st4
        | (.loop_end, st4) =>
          if st4.buffer_n = 1 then
            if load st4.buffer 0 = 0x1B then
              write_child ws { st4 with trace := .load 0 :: st4.trace }
            else .running { st4 with trace := .load 0 :: st4.trace }
          else .running st4 := by
  have hfind : find_esc st.buffer_n.toNat st 0 = found st A.length := by
    have e : st.buffer_n.toNat = A.length + ((st.buffer_n.toNat - A.length - 1) + 1) := by
      omega
    rw [e, find_esc_skip A hA st 0 _ (le_refl _) (by simp [hb]), find_esc_hit]
    · simp [found]
    · simp only [Int.zero_add]
      apply @load_at_front st.buffer R _ 27 (Int.natCast_nonneg _)
      simp only [Int.toNat_ofNat, hb, List.drop_left]
      exact List.prefix_refl _
  have hbn : (ioctl_get (found st A.length)).buffer_n = st.buffer_n := by
    simp only [ioctl_get]; split <;> rfl
  have hbg : (ioctl_get (found st A.length)).dtterm_begin = A.length := by
    simp only [ioctl_get]; split <;> rfl
  have hf : (found st A.length).dtterm_begin ≥ 0 := Int.natCast_nonneg _
  simp only [rescan, armed, hbeg, if_true, hfind, hbn, hbg, hf]

theorem rescan_strip (ws : List Int) (f : Nat) (st : Relay) (A B J rs cs : List Nat)
    (hA : 27 ∉ A) (hrs : IsNumeral rs) (hcs : IsNumeral cs)
    (hr : decval rs < 65536) (hc : decval cs < 65536)
    (hb : st.buffer = A ++ (resize_seq rs cs ++ (B ++ J)))
    (hn : st.buffer_n = A.length + (resize_seq rs cs).length + B.length)
    (hbeg : st.dtterm_begin = -1) (hs : st.dtterm_state = 0) :
    ∃ st', rescan ws (f + 1) st = rescan ws f st'
      ∧ Stripped st st' (A ++ B) (decval rs) (decval cs) := by
  have hseq : resize_seq rs cs = 27 :: (resize_seq rs cs).tail := by simp [resize_seq]
  have hlen : 0 < (resize_seq rs cs).length := by simp [resize_seq]
  obtain ⟨a1, a2, a3, a4, a5, a6, a7, a8, a9, a10⟩ := armed_fields st A.length
  obtain ⟨tr, hp⟩ := parse_resize rs cs hrs hcs hr hc (armed st A.length)
    A.length B.length (Int.natCast_nonneg _)
    (by
      simp only [a1, Int.toNat_ofNat, hb, List.drop_left]
      exact List.prefix_append _ _)
    (a4.trans hs) a5
  have hfuel : (st.buffer_n - (A.length : Int)).toNat
      = (resize_seq rs cs).length + B.length := by omega
  refine ⟨(parse_loop ((resize_seq rs cs).length + B.length) (armed st A.length) A.length).2,
    ?_, ?_⟩
  · rw [rescan_found ws f st A ((resize_seq rs cs).tail ++ (B ++ J)) hA
      (by rw [hb]; conv_lhs => rw [hseq]; simp) (by omega) hbeg, hfuel, hp]
  · rw [hp]
    have := strip_spec
      { armed st A.length with
        trace := tr
        dtterm_state := 4
        dtterm_arg := decval cs
        console_size := { (armed st A.length).console_size with ws_row := decval rs } }
      ((A.length : Int) + 1 + 1 + 1 + 1 + rs.length + 1 + cs.length)
      A (resize_seq rs cs) B J (a1.trans hb) a3
      (by simp [resize_seq]; omega) (by rw [a2, hn])
    simp only [Stripped, a6, a7, a8, a9, to_ushort_cast _ hc] at this ⊢
    exact this

/-! ## The label `write_child` and the read -/

theorem write_child_spec (ws : List Int) (S st' : Relay) (C : List Nat)
    (hb : ∃ J, S.buffer = C ++ J) (hn : S.buffer_n = C.length)
    (hrun : write_child ws S = .running st') :
    st'.to_child = S.to_child ++ C ∧ st'.buffer_n = 0
    ∧ st'.dtterm_begin = -1 ∧ st'.dtterm_state = 0
    ∧ st'.resizes = S.resizes ∧ st'.pty_size = S.pty_size
    ∧ st'.ioctl_ok = S.ioctl_ok ∧ st'.to_stdout = S.to_stdout := by
  unfold write_child at hrun
  have h1 := write_loop_delivers .child_tty ws
    { S with dtterm_state := 0, dtterm_begin := -1 } st' C hb hn hrun
  have h2 := write_loop_frame .child_tty ws _ _ hrun
  simp only [Outcome.state, sink] at h1 h2
  exact ⟨h1.1, h1.2, h2.1, h2.2.1, h2.2.2.1, h2.2.2.2.1, h2.2.2.2.2.1, h2.2.2.2.2.2.1 trivial⟩

theorem write_child_full (S : Relay) :
    ∃ st', write_child [S.buffer_n] S = .running st' :=
  write_loop_full .child_tty { S with dtterm_state := 0, dtterm_begin := -1 }

theorem write_child_empty (ws : List Int) (S : Relay) (hn : S.buffer_n = 0) :
    write_child ws S = .running { S with dtterm_state := 0, dtterm_begin := -1 } := by
  unfold write_child
  cases ws <;> simp [write_loop, hn]

theorem read_into_eq (st : Relay) (chunk : List Nat)
    (hlen : (chunk.length : Int) ≤ BUFFER_SIZE - st.buffer_n) :
    read_into st chunk
      = ((chunk.length : Int), { st with buffer := chunk ++ st.buffer.drop chunk.length }) := by
  have e : chunk.take (BUFFER_SIZE - st.buffer_n).toNat = chunk :=
    List.take_of_length_le (by omega)
  simp only [read_into, e]

theorem after_read_fields (st : Relay) (chunk : List Nat)
    (hlen : (chunk.length : Int) ≤ BUFFER_SIZE - st.buffer_n) :
    (after_read st chunk).buffer = chunk ++ st.buffer.drop chunk.length
    ∧ (after_read st chunk).buffer_n = chunk.length
    ∧ (after_read st chunk).dtterm_begin = st.dtterm_begin
    ∧ (after_read st chunk).dtterm_state = st.dtterm_state
    ∧ (after_read st chunk).resizes = st.resizes
    ∧ (after_read st chunk).pty_size = st.pty_size
    ∧ (after_read st chunk).ioctl_ok = st.ioctl_ok
    ∧ (after_read st chunk).to_child = st.to_child
    ∧ (after_read st chunk).to_stdout = st.to_stdout := by
  simp [after_read, read_into_eq st chunk hlen]

theorem stdin_idle (st : Relay) (ev : Event) (chunk : List Nat)
    (hidle : Idle st) (hi : ev.stdin_ready = some (.data chunk))
    (hne : chunk ≠ []) (hlen : chunk.length ≤ 1024) :
    stdin_side st ev = rescan ev.child_writes (chunk.length + 1) (after_read st chunk) := by
  obtain ⟨h0, _, _⟩ := hidle
  have hl : (chunk.length : Int) ≤ BUFFER_SIZE - st.buffer_n := by
    simp only [h0, BUFFER_SIZE]; omega
  have hpos : ¬ ((chunk.length : Int) = 0) := fun h =>
    hne (List.eq_nil_of_length_eq_zero (by omega))
  simp only [stdin_side, hi, after_read, read_into_eq st chunk hl, if_neg hpos,
    Int.toNat_ofNat]

/-- With the pty not readable and the buffer empty, an iteration of the
loop is its external-input branch. -/
theorem step_eq_stdin_side (st : Relay) (ev : Event)
    (hp : ev.pty_ready = none) (h0 : st.buffer_n = 0) :
    step st ev = stdin_side st ev := by
  simp only [step, pty_side, hp, h0, if_true]

/-! ## Buffers that are flushed as they are -/

theorem armed_same (st : Relay) (n : Nat) : SameData st (armed st n) := by
  obtain ⟨a1, a2, _, _, _, a6, a7, a8, a9, a10⟩ := armed_fields st n
  exact ⟨a1, a2, a6, a10, a7, a8, a9⟩

theorem rescan_no_esc (ws : List Int) (f : Nat) (st : Relay) (C : List Nat)
    (hC : 27 ∉ C) (hb : ∃ J, st.buffer = C ++ J) (hn : st.buffer_n = C.length)
    (hbeg : st.dtterm_begin = -1) :
    rescan ws (f + 1) st = write_child ws { st with trace := loads 0 C.length st.trace } := by
  obtain ⟨J, hb⟩ := hb
  have hfind : find_esc st.buffer_n.toNat st 0
      = { st with trace := loads 0 C.length st.trace } := by
    have e : st.buffer_n.toNat = C.length + 0 := by omega
    rw [e, find_esc_skip C hC st 0 _ (le_refl _) (by simp [hb])]
    simp [find_esc]
  simp only [rescan, hbeg, if_true, hfind]
  rw [if_neg (by decide)]

theorem parse_abort_after_esc (st : Relay) (i : Int) (k x : Nat)
    (h : load st.buffer i = x) (hs : st.dtterm_state = 1)
    (hx : x ≠ 91 ∧ x ≠ 59 ∧ ¬ (48 ≤ x ∧ x ≤ 57)) :
    parse_loop (k + 1) st i = (.write_child, { st with trace := .load i :: st.trace }) := by
  obtain ⟨h1, h2, h3⟩ := hx
  simp only [parse_loop, h, hs]
  split
  · simp
  · simp [h1, h2, h3]

theorem parse_semi_abort (st : Relay) (i : Int) (k : Nat)
    (h : load st.buffer i = 59) (hs : st.dtterm_state = 2) (ha : st.dtterm_arg ≠ 8) :
    parse_loop (k + 1) st i = (.write_child, { st with trace := .load i :: st.trace }) := by
  simp [parse_loop, h, hs, ha]

theorem parse_loop_rejects (bs : List Nat) :
    ∀ (st : Relay) (i : Int) (k : Nat), 0 ≤ i → bs <+: st.buffer.drop i.toNat →
      rejects st.dtterm_state st.dtterm_arg bs = true →
      ∃ S, parse_loop (bs.length + k) st i = (.write_child, S) ∧ SameData st S := by
  induction bs with
  | nil => intro st i k _ _ h; simp [rejects] at h
  | cons b bs ih =>
    intro st i k hi hpre h
    have hl : (b :: bs).length + k = (bs.length + k) + 1 := by simp; omega
    have hb : load st.buffer i = b := load_at_front hi hpre
    have hpre2 := front_tail hi hpre
    have same : SameData st { st with trace := .load i :: st.trace } :=
      ⟨rfl, rfl, rfl, rfl, rfl, rfl, rfl⟩
    have key : ∀ st2 : Relay, SameData st st2 →
        rejects st2.dtterm_state st2.dtterm_arg bs = true →
        ∃ S, parse_loop (bs.length + k) st2 (i + 1) = (.write_child, S) ∧ SameData st S := by
      intro st2 hs2 hr
      obtain ⟨S, e, d1, d2, d3, d4, d5, d6, d7⟩ :=
        ih st2 (i + 1) k (by omega) (by rw [hs2.1]; exact hpre2) hr
      obtain ⟨c1, c2, c3, c4, c5, c6, c7⟩ := hs2
      exact ⟨S, e, d1.trans c1, d2.trans c2, d3.trans c3, d4.trans c4, d5.trans c5,
        d6.trans c6, d7.trans c7⟩
    rw [hl]
    simp only [parse_loop, hb]
    simp only [rejects] at h
    split
    · rw [if_pos (by assumption)] at h
      split
      · rw [if_pos (by assumption)] at h
        exact key _ ⟨rfl, rfl, rfl, rfl, rfl, rfl, rfl⟩ h
      · exact ⟨_, rfl, same⟩
    · rw [if_neg (by assumption)] at h
      split
      · rw [if_pos (by assumption)] at h
        split
        · rw [if_pos (by assumption)] at h
          exact key _ ⟨rfl, rfl, rfl, rfl, rfl, rfl, rfl⟩ h
        · exact ⟨_, rfl, same⟩
      · rw [if_neg (by assumption)] at h
        split
        · rw [if_pos (by assumption)] at h
          split
          · exact key _ ⟨rfl, rfl, rfl, rfl, rfl, rfl, rfl⟩ h
          · exact ⟨_, rfl, same⟩
        · rw [if_neg (by assumption)] at h
          split
          · rw [if_pos (by assumption)] at h
            split
            · exact ⟨_, rfl, same⟩
            · rw [if_neg (by assumption)] at h
              split
              · exact key _ ⟨rfl, rfl, rfl, rfl, rfl, rfl, rfl⟩ h
              · exact key _ ⟨rfl, rfl, rfl, rfl, rfl, rfl, rfl⟩ h
          · rw [if_neg (by assumption)] at h
            split
            · rw [if_pos (by assumption)] at h
              split
              · rw [if_pos (by assumption)] at h
                exact absurd h (by decide)
              · exact ⟨_, rfl, same⟩
            · exact ⟨_, rfl, same⟩

theorem rescan_rejected (ws : List Int) (f : Nat) (st : Relay) (C R J : List Nat)
    (hC : 27 ∉ C) (hb : st.buffer = C ++ 27 :: (R ++ J))
    (hn : st.buffer_n = C.length + 1 + R.length)
    (hbeg : st.dtterm_begin = -1) (hs : st.dtterm_state = 0)
    (hrej : rejects 1 0 R = true) :
    ∃ S, rescan ws (f + 1) st = write_child ws S ∧ SameData st S := by
  obtain ⟨a1, a2, a3, a4, a5, a6, a7, a8, a9, a10⟩ := armed_fields st C.length
  have hpre : (27 :: R) <+: (armed st C.length).buffer.drop ((C.length : Int)).toNat := by
    simp only [a1, Int.toNat_ofNat, hb, List.drop_left]
    exact ⟨J, rfl⟩
  have hfuel : (st.buffer_n - (C.length : Int)).toNat = (R.length + 0) + 1 := by omega
  obtain ⟨S, e, d1, d2, d3, d4, d5, d6, d7⟩ := parse_loop_rejects R
    { armed st C.length with trace := .load C.length :: (armed st C.length).trace,
                             dtterm_state := 1 }
    ((C.length : Int) + 1) 0 (by omega) (front_tail (Int.natCast_nonneg _) hpre)
    (by simpa [a5] using hrej)
  refine ⟨S, ?_, ?_⟩
  · rw [rescan_found ws f st C (R ++ J) hC hb (by omega) hbeg, hfuel,
      parse_esc _ _ _ (load_at_front (Int.natCast_nonneg _) hpre) (a4.trans hs)]
    dsimp only at e ⊢
    simp only [Nat.add_zero] at e ⊢
    rw [e]
  · exact ⟨d1.trans a1, d2.trans a2, d3.trans a6, d4.trans a10, d5.trans a7,
      d6.trans a8, d7.trans a9⟩

theorem rescan_passes (ws : List Int) (f : Nat) (st : Relay) (C : List Nat)
    (hC : PassesThrough C) (hb : ∃ J, st.buffer = C ++ J) (hn : st.buffer_n = C.length)
    (hbeg : st.dtterm_begin = -1) (hs : st.dtterm_state = 0) :
    ∃ S, rescan ws (f + 1) st = write_child ws S ∧ SameData st S := by
  rcases hC with hC | ⟨C1, C2, rfl, hC1, hx⟩
  · exact ⟨_, rescan_no_esc ws f st C hC hb hn hbeg, rfl, rfl, rfl, rfl, rfl, rfl, rfl⟩
  · obtain ⟨J, hb⟩ := hb
    exact rescan_rejected ws f st C1 C2 J hC1 (by simpa using hb)
      (by rw [hn]; simp; omega) hbeg hs hx

theorem passes_append (A B : List Nat) (hA : 27 ∉ A) (hB : PassesThrough B) :
    PassesThrough (A ++ B) := by
  rcases hB with hB | ⟨B1, B2, rfl, hB1, hx⟩
  · left; simp [hA, hB]
  · right
    exact ⟨A ++ B1, B2, by simp, by simp [hA, hB1], hx⟩

theorem resize_seq_length (rs cs : List Nat) :
    (resize_seq rs cs).length = rs.length + cs.length + 6 := by
  simp [resize_seq]; omega

/-- From an idle parser, a chunk `A ++ ESC[8;r;ct ++ B` with `A` free of
ESC and `B` passing through reaches the label `write_child` with `A ++ B`
in the buffer and the geometry requested. -/
theorem rescan_strip_flush (ws : List Int) (f : Nat) (st : Relay) (A B rs cs : List Nat)
    (hA : 27 ∉ A) (hB : PassesThrough B) (hrs : IsNumeral rs) (hcs : IsNumeral cs)
    (hr : decval rs < 65536) (hc : decval cs < 65536)
    (hb : ∃ J, st.buffer = (A ++ resize_seq rs cs ++ B) ++ J)
    (hn : st.buffer_n = (A ++ resize_seq rs cs ++ B).length)
    (hbeg : st.dtterm_begin = -1) (hs : st.dtterm_state = 0) :
    ∃ st1 S, rescan ws (f + 2) st = write_child ws S
      ∧ Stripped st st1 (A ++ B) (decval rs) (decval cs) ∧ SameData st1 S := by
  obtain ⟨J, hb⟩ := hb
  obtain ⟨st1, h1, hS⟩ := rescan_strip ws (f + 1) st A B J rs cs hA hrs hcs hr hc
    (by simpa using hb) (by rw [hn]; simp; omega) hbeg hs
  obtain ⟨S, h2, hD⟩ := rescan_passes ws f st1 (A ++ B) (passes_append A B hA hB)
    hS.1 hS.2.1 hS.2.2.1 hS.2.2.2.1
  exact ⟨st1, S, h1.trans h2, hS, hD⟩

/-! ## Sequence stripping -/

/-- C1 (amended): when the parser is idle and one read of external input
returns `A ++ ESC [ 8 ; rs ; cs t ++ B`, at most 1024 bytes, where `A` has no
ESC byte, `B` passes through (it has no ESC byte, or the candidate at its
first ESC is aborted before `B` ends) and `rs`, `cs` are numerals below
65536, then every run of the branch in which the retry loop ends has written
exactly `A ++ B` to the child, has requested the geometry `rs` by `cs` (and
set it when `ioctl` works) and has left the parser idle with an empty
buffer; and such a run exists. -/
theorem sequence_stripping (st st' : Relay) (ev : Event) (A B rs cs : List Nat)
    (hidle : Idle st)
    (hi : ev.stdin_ready = some (.data (A ++ resize_seq rs cs ++ B)))
    (hA : 27 ∉ A) (hB : PassesThrough B) (hrs : IsNumeral rs) (hcs : IsNumeral cs)
    (hr : decval rs < 65536) (hc : decval cs < 65536)
    (hlen : (A ++ resize_seq rs cs ++ B).length ≤ 1024)
    (hrun : stdin_side st ev = .running st') :
    st'.to_child = st.to_child ++ (A ++ B)
    ∧ st'.resizes = (decval rs, decval cs) :: st.resizes
    ∧ (st.ioctl_ok = true →
        st'.pty_size.ws_row = decval rs ∧ st'.pty_size.ws_col = decval cs)
    ∧ Idle st'
    ∧ ∃ stw, stdin_side st { ev with child_writes := [((A ++ B).length : Int)] }
        = .running stw := by
  have hne : A ++ resize_seq rs cs ++ B ≠ [] := by simp [resize_seq]
  have hl : ((A ++ resize_seq rs cs ++ B).length : Int) ≤ BUFFER_SIZE - st.buffer_n := by
    rw [hidle.1]; simp only [BUFFER_SIZE]; omega
  obtain ⟨r1, r2, r3, r4, r5, r6, r7, r8, r9⟩ := after_read_fields st _ hl
  have hfuel : (A ++ resize_seq rs cs ++ B).length + 1
      = ((A ++ resize_seq rs cs ++ B).length - 1) + 2 := by
    simp [resize_seq_length]; omega
  have key : ∀ ws, ∃ st1 S, rescan ws ((A ++ resize_seq rs cs ++ B).length + 1)
        (after_read st (A ++ resize_seq rs cs ++ B)) = write_child ws S
      ∧ Stripped (after_read st (A ++ resize_seq rs cs ++ B)) st1 (A ++ B)
          (decval rs) (decval cs)
      ∧ SameData st1 S := by
    intro ws
    rw [hfuel]
    exact rescan_strip_flush ws _ _ A B rs cs hA hB hrs hcs hr hc ⟨_, r1⟩ r2
      (r3.trans hidle.2.1) (r4.trans hidle.2.2)
  obtain ⟨st1, S, h1, hS, hD⟩ := key ev.child_writes
  rw [stdin_idle st ev _ hidle hi hne hlen, h1] at hrun
  obtain ⟨s1, s2, s3, s4, s5, s6, s7, s8, s9⟩ := hS
  obtain ⟨d1, d2, d3, d4, d5, d6, d7⟩ := hD
  obtain ⟨w1, w2, w3, w4, w5, w6, w7, w8⟩ :=
    write_child_spec ev.child_writes S st' (A ++ B) (by rw [d1]; exact s1)
      (by rw [d2]; exact s2) hrun
  refine ⟨?_, ?_, ?_, ⟨w2, w3, w4⟩, ?_⟩
  · rw [w1, d6, s8, r8]
  · rw [w5, d3, s5, r5]
  · intro hok
    rw [w6, d4]
    exact s6 (r7.trans hok)
  · obtain ⟨st2, S2, h2, hS2, hD2⟩ := key [((A ++ B).length : Int)]
    have e := stdin_idle st { ev with child_writes := [((A ++ B).length : Int)] } _
      hidle hi hne hlen
    rw [e]
    simp only
    rw [h2]
    have hbn : S2.buffer_n = ((A ++ B).length : Int) := by
      rw [hD2.2.1]; exact hS2.2.1
    rw [← hbn]
    exact write_child_full S2

theorem running_of_is_running (o : Outcome) (h : o.is_running = true) :
    o = .running o.state := by
  cases o <;> simp_all [Outcome.is_running, Outcome.state]

set_option maxRecDepth 100000 in
/-- The chunk `a ESC[8;24;80t ESC[A`: the child gets `a ESC[A` and 24 by 80 is
requested. -/
theorem sequence_stripping_witness :
    (stdin_side boot
        (stdin_event ([97] ++ resize_seq [50, 52] [56, 48] ++ [27, 91, 65]) [1, 3])).state.to_child
      = [97, 27, 91, 65]
    ∧ (stdin_side boot
        (stdin_event ([97] ++ resize_seq [50, 52] [56, 48] ++ [27, 91, 65]) [1, 3])).state.resizes
      = [(24, 80)] :=
  have h := sequence_stripping boot
    (stdin_side boot
      (stdin_event ([97] ++ resize_seq [50, 52] [56, 48] ++ [27, 91, 65]) [1, 3])).state
    (stdin_event ([97] ++ resize_seq [50, 52] [56, 48] ++ [27, 91, 65]) [1, 3])
    [97] [27, 91, 65] [50, 52] [56, 48] ⟨rfl, rfl, rfl⟩ rfl (by decide)
    (Or.inr ⟨[], [91, 65], rfl, by decide, by decide⟩)
    ⟨by decide, by decide⟩ ⟨by decide, by decide⟩ (by decide) (by decide) (by decide)
    (running_of_is_running _ (by decide))
  ⟨h.1, h.2.1⟩

/-! ## Lone escape, false alarm -/

theorem rescan_lone_esc (ws : List Int) (f : Nat) (st : Relay) (J : List Nat)
    (hb : st.buffer = 27 :: J) (hn : st.buffer_n = 1)
    (hbeg : st.dtterm_begin = -1) (hs : st.dtterm_state = 0) :
    ∃ S, rescan ws (f + 1) st = write_child ws S ∧ SameData st S := by
  obtain ⟨a1, a2, a3, a4, a5, a6, a7, a8, a9, a10⟩ := armed_fields st 0
  have hl : load (armed st 0).buffer 0 = 27 := by rw [a1, hb]; rfl
  have hp : parse_loop (st.buffer_n - ((([] : List Nat).length : Nat) : Int)).toNat
      (armed st ([] : List Nat).length) (([] : List Nat).length : Nat)
      = (.loop_end, { armed st 0 with trace := .load 0 :: (armed st 0).trace,
                                      dtterm_state := 1 }) := by
    rw [hn]
    exact parse_esc (armed st 0) 0 0 hl (a4.trans hs)
  refine ⟨{ armed st 0 with
            trace := .load 0 :: .load 0 :: (armed st 0).trace, dtterm_state := 1 }, ?_, ?_⟩
  · rw [rescan_found ws f st [] J (by simp) (by simpa using hb) (by rw [hn]; simp) hbeg, hp]
    simp only [a2, hn, if_true]
    rw [if_pos (by rw [a1, hb]; rfl)]
  · exact armed_same st 0

theorem rescan_false_alarm (ws : List Int) (f : Nat) (st : Relay) (P n R : List Nat)
    (hP : 27 ∉ P) (hnum : ∀ d ∈ n, 48 ≤ d ∧ d ≤ 57)
    (hv : decval n < 2147483648) (h8 : decval n ≠ 8)
    (hb : st.buffer = P ++ 27 :: 91 :: (n ++ 59 :: R))
    (hn : (P.length : Int) + 2 + n.length + 1 ≤ st.buffer_n)
    (hbeg : st.dtterm_begin = -1) (hs : st.dtterm_state = 0) :
    ∃ S, rescan ws (f + 1) st = write_child ws S ∧ SameData st S := by
  obtain ⟨a1, a2, a3, a4, a5, a6, a7, a8, a9, a10⟩ := armed_fields st P.length
  have h0 : (27 :: 91 :: (n ++ 59 :: R))
      <+: (armed st P.length).buffer.drop ((P.length : Int)).toNat := by
    simp only [a1, Int.toNat_ofNat, hb, List.drop_left]
    exact List.prefix_refl _
  have hi : (0 : Int) ≤ P.length := Int.natCast_nonneg _
  have h1 := front_tail hi h0
  have h2 := front_tail (by omega) h1
  have h3 := front_drop_add (by omega) h2
  have an := accum_zero n hnum
  have hfuel : (st.buffer_n - (P.length : Int)).toNat
      = (n.length + (((st.buffer_n - (P.length : Int)).toNat - 3 - n.length) + 1)) + 1 + 1 := by
    omega
  have hp : ∃ S, parse_loop (st.buffer_n - (P.length : Int)).toNat (armed st P.length) P.length
      = (.write_child, S) ∧ SameData (armed st P.length) S := by
    apply Exists.intro
    refine ⟨?_, ?_⟩
    · rw [hfuel, parse_esc _ _ _ (load_at_front hi h0) (a4.trans hs)]
      rw [parse_bracket]; rotate_left
      · exact load_at_front (by omega) h1
      · rfl
      dsimp only
      rw [parse_digits n hnum]; rotate_left
      · omega
      · exact front_head h2
      · simp [a5]
      · simp only [a5, an]; omega
      dsimp only
      rw [parse_semi_abort]; rotate_left
      · rfl
      · simp only [a5, an]; omega
      · exact load_at_front (by omega) h3
    · exact ⟨rfl, rfl, rfl, rfl, rfl, rfl, rfl⟩
  obtain ⟨S, hp1, hp2⟩ := hp
  refine ⟨S, ?_, ?_⟩
  · rw [rescan_found ws f st P (91 :: (n ++ 59 :: R)) hP hb (by omega) hbeg, hp1]
  · obtain ⟨d1, d2, d3, d4, d5, d6, d7⟩ := hp2
    exact ⟨d1.trans a1, d2.trans a2, d3.trans a6, d4.trans a10, d5.trans a7,
      d6.trans a8, d7.trans a9⟩

/-- What a run through `write_child` that comes back to the top of the loop
leaves behind, when the interceptor has kept the chunk as it was. -/
theorem flushed (st st' S : Relay) (ws : List Int) (chunk : List Nat)
    (hl : (chunk.length : Int) ≤ BUFFER_SIZE - st.buffer_n)
    (hD : SameData (after_read st chunk) S) (hrun : write_child ws S = .running st') :
    st'.to_child = st.to_child ++ chunk ∧ st'.resizes = st.resizes
    ∧ st'.pty_size = st.pty_size ∧ Idle st' := by
  obtain ⟨r1, r2, r3, r4, r5, r6, r7, r8, r9⟩ := after_read_fields st chunk hl
  obtain ⟨d1, d2, d3, d4, d5, d6, d7⟩ := hD
  obtain ⟨w1, w2, w3, w4, w5, w6, w7, w8⟩ :=
    write_child_spec ws S st' chunk ⟨_, d1.trans r1⟩ (d2.trans r2) hrun
  exact ⟨by rw [w1, d6, r8], by rw [w5, d3, r5], by rw [w6, d4, r6], w2, w3, w4⟩

/-- C8: when the parser is idle and a read of external input returns the
single byte ESC, every run of the branch in which the retry loop ends has
written that byte to the child in this same iteration, with no
geometry request, and has left the buffer empty and the parser idle; the run
in which `write` takes the byte at once is such a run. -/
theorem lone_escape_passthrough (st st' : Relay) (ev : Event)
    (hidle : Idle st)
    (hi : ev.stdin_ready = some (.data [27]))
    (hrun : stdin_side st ev = .running st') :
    st'.to_child = st.to_child ++ [27] ∧ st'.resizes = st.resizes
    ∧ st'.pty_size = st.pty_size ∧ Idle st'
    ∧ ∃ stw, stdin_side st { ev with child_writes := [1] } = .running stw := by
  have hl : (([27] : List Nat).length : Int) ≤ BUFFER_SIZE - st.buffer_n := by
    rw [hidle.1]; decide
  obtain ⟨r1, r2, r3, r4, r5, r6, r7, r8, r9⟩ := after_read_fields st [27] hl
  have key : ∀ ws, ∃ S, rescan ws (([27] : List Nat).length + 1) (after_read st [27])
      = write_child ws S ∧ SameData (after_read st [27]) S := fun ws =>
    rescan_lone_esc ws _ _ _ r1 r2 (r3.trans hidle.2.1) (r4.trans hidle.2.2)
  obtain ⟨S, h1, hD⟩ := key ev.child_writes
  rw [stdin_idle st ev _ hidle hi (by simp) (by simp), h1] at hrun
  obtain ⟨f1, f2, f3, f4⟩ := flushed st st' S _ [27] hl hD hrun
  refine ⟨f1, f2, f3, f4, ?_⟩
  obtain ⟨S2, h2, hD2⟩ := key [1]
  rw [stdin_idle st { ev with child_writes := [1] } _ hidle hi (by simp) (by simp)]
  simp only
  rw [h2]
  have hbn : S2.buffer_n = 1 := hD2.2.1.trans r2
  rw [← hbn]
  exact write_child_full S2

/-- C6: when the parser is idle and one read of external input returns
`P ++ ESC [ n ; ++ S`, at most 1024 bytes, where `P` has no ESC byte and `n`
is a numeral whose value is below 2^31 and is not 8, every run of the
branch in which the retry loop ends has written the whole chunk
to the child, byte for byte, has made no geometry request and has left the
parser idle with an empty buffer; and such a run exists. -/
theorem false_alarm_safety (st st' : Relay) (ev : Event) (P n S : List Nat)
    (hidle : Idle st)
    (hi : ev.stdin_ready = some (.data (P ++ [27, 91] ++ n ++ [59] ++ S)))
    (hP : 27 ∉ P) (hnum : IsNumeral n)
    (hv : decval n < 2147483648) (h8 : decval n ≠ 8)
    (hlen : (P ++ [27, 91] ++ n ++ [59] ++ S).length ≤ 1024)
    (hrun : stdin_side st ev = .running st') :
    st'.to_child = st.to_child ++ (P ++ [27, 91] ++ n ++ [59] ++ S)
    ∧ st'.resizes = st.resizes ∧ st'.pty_size = st.pty_size ∧ Idle st'
    ∧ ∃ stw, stdin_side st { ev with
          child_writes := [((P ++ [27, 91] ++ n ++ [59] ++ S).length : Int)] }
        = .running stw := by
  have hne : P ++ [27, 91] ++ n ++ [59] ++ S ≠ [] := by simp
  have hl : ((P ++ [27, 91] ++ n ++ [59] ++ S).length : Int) ≤ BUFFER_SIZE - st.buffer_n := by
    rw [hidle.1]; simp only [BUFFER_SIZE]; omega
  obtain ⟨r1, r2, r3, r4, r5, r6, r7, r8, r9⟩ := after_read_fields st _ hl
  have key : ∀ ws, ∃ T, rescan ws ((P ++ [27, 91] ++ n ++ [59] ++ S).length + 1)
      (after_read st (P ++ [27, 91] ++ n ++ [59] ++ S))
      = write_child ws T
      ∧ SameData (after_read st (P ++ [27, 91] ++ n ++ [59] ++ S)) T := fun ws =>
    rescan_false_alarm ws _ _ P n (S ++ st.buffer.drop (P ++ [27, 91] ++ n ++ [59] ++ S).length)
      hP hnum.2 hv h8 (by rw [r1]; simp) (by rw [r2]; simp; omega)
      (r3.trans hidle.2.1) (r4.trans hidle.2.2)
  obtain ⟨T, h1, hD⟩ := key ev.child_writes
  rw [stdin_idle st ev _ hidle hi hne hlen, h1] at hrun
  obtain ⟨f1, f2, f3, f4⟩ := flushed st st' T _ _ hl hD hrun
  refine ⟨f1, f2, f3, f4, ?_⟩
  obtain ⟨T2, h2, hD2⟩ := key [((P ++ [27, 91] ++ n ++ [59] ++ S).length : Int)]
  have e := stdin_idle st { ev with
    child_writes := [((P ++ [27, 91] ++ n ++ [59] ++ S).length : Int)] } _
    hidle hi hne hlen
  rw [e]
  simp only
  rw [h2]
  have hbn : T2.buffer_n = ((P ++ [27, 91] ++ n ++ [59] ++ S).length : Int) :=
    hD2.2.1.trans r2
  rw [← hbn]
  exact write_child_full T2

/-! ## Several sequences in one chunk -/

theorem getLastD_cons_eq {α : Type} (a d : α) (l : List α) :
    (a :: l).getLastD d = l.getLastD a := by
  cases l with
  | nil => rfl
  | cons b l => simp [List.getLastD, List.getLast_cons]

theorem rescan_chunk (ws : List Int) :
    ∀ (pairs : List (List Nat × List Nat)) (st : Relay) (f : Nat),
      (∀ p ∈ pairs, IsNumeral p.1 ∧ IsNumeral p.2 ∧ decval p.1 < 65536 ∧ decval p.2 < 65536) →
      (∃ J, st.buffer = resize_chunk pairs ++ J) →
      st.buffer_n = (resize_chunk pairs).length →
      st.dtterm_begin = -1 → st.dtterm_state = 0 → pairs.length < f →
      ∃ st', rescan ws f st = .running st'
        ∧ st'.to_child = st.to_child
        ∧ st'.resizes = (pairs.map geometry).reverse ++ st.resizes
        ∧ Idle st'
        ∧ st'.ioctl_ok = st.ioctl_ok
        ∧ (st.ioctl_ok = true →
            (st'.pty_size.ws_row, st'.pty_size.ws_col)
              = (pairs.map geometry).getLastD (st.pty_size.ws_row, st.pty_size.ws_col)) := by
  intro pairs
  induction pairs with
  | nil =>
    intro st f _ hb hn hbeg hs hf
    obtain ⟨f, rfl⟩ : ∃ g, f = g + 1 := ⟨f - 1, by omega⟩
    have hn0 : st.buffer_n = 0 := by simpa [resize_chunk] using hn
    rw [rescan_no_esc ws f st [] (by simp) (by simp)
      (by simpa [resize_chunk] using hn) hbeg]
    rw [write_child_empty ws { st with trace := loads 0 ([] : List Nat).length st.trace } hn0]
    exact ⟨_, rfl, rfl, rfl, ⟨hn0, rfl, rfl⟩, rfl, fun _ => rfl⟩
  | cons p ps ih =>
    intro st f hall hb hn hbeg hs hf
    obtain ⟨f, rfl⟩ : ∃ g, f = g + 1 := ⟨f - 1, by omega⟩
    obtain ⟨J, hb⟩ := hb
    obtain ⟨h1, h2, h3, h4⟩ := hall p (by simp)
    obtain ⟨st1, e1, s1, s2, s3, s4, s5, s6, s7, s8, s9⟩ :=
      rescan_strip ws f st [] (resize_chunk ps) J p.1 p.2 (by simp) h1 h2 h3 h4
        (by simpa [resize_chunk] using hb)
        (by rw [hn]; simp [resize_chunk]) hbeg hs
    obtain ⟨st', e2, t1, t2, t3, t4, t5⟩ := ih st1 f
      (fun q hq => hall q (by simp [hq])) (by simpa using s1) (by simpa using s2) s3 s4
      (by simpa using hf)
    refine ⟨st', e1.trans e2, t1.trans s8, ?_, t3, t4.trans s7, ?_⟩
    · rw [t2, s5]; simp [geometry]
    · intro hok
      rw [t5 (s7.trans hok), (s6 hok).1, (s6 hok).2, List.map_cons, getLastD_cons_eq]
      rfl

theorem resize_chunk_length (pairs : List (List Nat × List Nat)) :
    pairs.length ≤ (resize_chunk pairs).length := by
  induction pairs with
  | nil => simp
  | cons p ps ih => simp [resize_chunk, resize_seq_length]; omega

/-- C7: when the parser is idle and a single read returns the resize
sequences of a non-empty list of pairs of numerals below 65536, back to
back and at most 1024 bytes in all, the branch ends, back at the top of
the loop, having written no byte to the child, having requested the
geometries of all the pairs in order, the last pair last (which is the
geometry the pty keeps when `ioctl` works), and with the parser idle and the
buffer empty. -/
theorem multiple_sequences (st : Relay) (ev : Event)
    (pairs : List (List Nat × List Nat))
    (hidle : Idle st)
    (hi : ev.stdin_ready = some (.data (resize_chunk pairs)))
    (hne : pairs ≠ [])
    (hall : ∀ p ∈ pairs,
      IsNumeral p.1 ∧ IsNumeral p.2 ∧ decval p.1 < 65536 ∧ decval p.2 < 65536)
    (hlen : (resize_chunk pairs).length ≤ 1024) :
    ∃ st', stdin_side st ev = .running st'
      ∧ st'.to_child = st.to_child
      ∧ st'.resizes = (pairs.map geometry).reverse ++ st.resizes
      ∧ st'.resizes.head? = some (geometry (pairs.getLast hne))
      ∧ (st.ioctl_ok = true →
          (st'.pty_size.ws_row, st'.pty_size.ws_col) = geometry (pairs.getLast hne))
      ∧ Idle st' := by
  have hcne : resize_chunk pairs ≠ [] := by
    intro h
    have := resize_chunk_length pairs
    rw [h] at this
    exact hne (List.eq_nil_of_length_eq_zero (by simpa using this))
  have hl : ((resize_chunk pairs).length : Int) ≤ BUFFER_SIZE - st.buffer_n := by
    rw [hidle.1]; simp only [BUFFER_SIZE]; omega
  obtain ⟨r1, r2, r3, r4, r5, r6, r7, r8, r9⟩ := after_read_fields st _ hl
  obtain ⟨st', e, t1, t2, t3, t4, t5⟩ := rescan_chunk ev.child_writes pairs
    (after_read st (resize_chunk pairs)) ((resize_chunk pairs).length + 1) hall ⟨_, r1⟩ r2
    (r3.trans hidle.2.1) (r4.trans hidle.2.2)
    (Nat.lt_succ_of_le (resize_chunk_length pairs))
  have hlast : (pairs.map geometry).getLastD (st.pty_size.ws_row, st.pty_size.ws_col)
      = geometry (pairs.getLast hne) := by
    rw [List.getLastD_eq_getLast?, List.getLast?_eq_getLast _ (by simpa using hne)]
    simp [List.getLast_map]
  refine ⟨st', ?_, t1.trans r8, by rw [t2, r5], ?_, ?_, t3⟩
  · rw [stdin_idle st ev _ hidle hi hcne hlen, e]
  · rw [t2, List.head?_append_of_ne_nil _ (by simpa using hne), List.head?_reverse,
      List.getLast?_eq_getLast _ (by simpa using hne)]
    simp [List.getLast_map]
  · intro hok
    rw [t5 (r7.trans hok), r6, hlast]

/-! ## Transparency of the retry loop -/

/-- C2: after a read has put a non-empty `chunk` (no longer than the room
`sizeof(buffer) - buffer_n`) at the front of the buffer, every finite sequence
`ws` of results of `write` with which the retry loop ends has made the
descriptor accept exactly the bytes of `chunk`, in order, and leaves
`buffer_n = 0`; this holds for the loop on either descriptor; the branch for a
readable pty is this loop on standard output; and the loop does end when a
single `write` takes the whole chunk. -/
theorem transparency (st st' : Relay) (chunk : List Nat) (fd : Fd) (ws : List Int)
    (hne : chunk ≠ [])
    (hlen : (chunk.length : Int) ≤ BUFFER_SIZE - st.buffer_n)
    (hrun : write_loop fd ws (after_read st chunk) = .running st') :
    sink fd st' = sink fd st ++ chunk ∧ st'.buffer_n = 0
    ∧ (∀ ev : Event, ev.pty_ready = some (.data chunk) →
        pty_side st ev = write_loop .stdout ev.stdout_writes (after_read st chunk))
    ∧ ∃ stw, write_loop fd [(chunk.length : Int)] (after_read st chunk) = .running stw := by
  obtain ⟨r1, r2, r3, r4, r5, r6, r7, r8, r9⟩ := after_read_fields st chunk hlen
  obtain ⟨h1, h2⟩ := write_loop_delivers fd ws _ st' chunk ⟨_, r1⟩ r2 hrun
  have hs : sink fd (after_read st chunk) = sink fd st := by
    cases fd
    · exact r9
    · exact r8
  refine ⟨by rw [h1, hs], h2, ?_, ?_⟩
  · intro ev hev
    have hpos : ¬ ((chunk.length : Int) = 0) := fun h =>
      hne (List.eq_nil_of_length_eq_zero (by omega))
    simp only [pty_side, hev, read_into_eq st chunk hlen, if_neg hpos, after_read]
  · rw [← r2]
    exact write_loop_full fd _

set_option maxRecDepth 100000 in
/-- Three bytes leave in a short write, an error, an empty write and a final
write of the other two. -/
theorem transparency_witness :
    (write_loop .stdout [1, -1, 0, 2] (after_read boot [104, 105, 33])).state.to_stdout
      = [104, 105, 33] :=
  (transparency boot (write_loop .stdout [1, -1, 0, 2] (after_read boot [104, 105, 33])).state
    [104, 105, 33] .stdout [1, -1, 0, 2] (by decide) (by decide)
    (running_of_is_running _ (by decide))).1

set_option maxRecDepth 100000 in
/-- A lone ESC goes out after one empty write. -/
theorem lone_escape_passthrough_witness :
    (stdin_side boot (stdin_event [27] [0, 1])).state.to_child = [27]
    ∧ Idle (stdin_side boot (stdin_event [27] [0, 1])).state :=
  have h := lone_escape_passthrough boot (stdin_side boot (stdin_event [27] [0, 1])).state
    (stdin_event [27] [0, 1]) ⟨rfl, rfl, rfl⟩ rfl (running_of_is_running _ (by decide))
  ⟨h.1, h.2.2.2.1⟩

set_option maxRecDepth 100000 in
/-- The chunk `ESC[9;1;1t` reaches the child whole. -/
theorem false_alarm_safety_witness :
    (stdin_side boot (stdin_event [27, 91, 57, 59, 49, 59, 49, 116] [8])).state.to_child
      = [27, 91, 57, 59, 49, 59, 49, 116]
    ∧ (stdin_side boot (stdin_event [27, 91, 57, 59, 49, 59, 49, 116] [8])).state.resizes = [] :=
  have h := false_alarm_safety boot
    (stdin_side boot (stdin_event [27, 91, 57, 59, 49, 59, 49, 116] [8])).state
    (stdin_event [27, 91, 57, 59, 49, 59, 49, 116] [8]) [] [57] [49, 59, 49, 116]
    ⟨rfl, rfl, rfl⟩ rfl (by decide) ⟨by decide, by decide⟩ (by decide) (by decide)
    (by decide) (running_of_is_running _ (by decide))
  ⟨h.1, h.2.1⟩

set_option maxRecDepth 100000 in
/-- The chunk `ESC[8;10;20t ESC[8;30;40t`: nothing for the child, 10 by 20 and
then 30 by 40 requested, the pty left at 30 by 40. -/
theorem multiple_sequences_witness :
    (stdin_side boot (stdin_event
        (resize_chunk [([49, 48], [50, 48]), ([51, 48], [52, 48])]) [])).is_running = true
    ∧ (stdin_side boot (stdin_event
        (resize_chunk [([49, 48], [50, 48]), ([51, 48], [52, 48])]) [])).state.to_child = []
    ∧ (stdin_side boot (stdin_event
        (resize_chunk [([49, 48], [50, 48]), ([51, 48], [52, 48])]) [])).state.resizes
      = [(30, 40), (10, 20)]
    ∧ (stdin_side boot (stdin_event
        (resize_chunk [([49, 48], [50, 48]), ([51, 48], [52, 48])]) [])).state.pty_size.ws_row
      = 30 := by
  obtain ⟨st', e, h1, h2, _, h4, _⟩ := multiple_sequences boot
    (stdin_event (resize_chunk [([49, 48], [50, 48]), ([51, 48], [52, 48])]) [])
    [([49, 48], [50, 48]), ([51, 48], [52, 48])] ⟨rfl, rfl, rfl⟩ rfl (by decide)
    (by decide) (by decide)
  rw [e]
  exact ⟨rfl, h1, h2, congrArg Prod.fst (h4 rfl)⟩

/-! ## The buffer bounds invariant -/

theorem memmove_length (buffer : List Nat) (dst src len : Int)
    (h : Access.in_bounds (.move dst src len)) (hl : buffer.length = 1024) :
    (memmove buffer dst src len).length = 1024 := by
  simp only [Access.in_bounds, BUFFER_SIZE] at h
  simp only [memmove, List.length_append, List.length_take, List.length_drop, hl]
  omega

theorem memset_length (buffer : List Nat) (dst len : Int)
    (h : Access.in_bounds (.fill dst len)) (hl : buffer.length = 1024) :
    (memset buffer dst len).length = 1024 := by
  simp only [Access.in_bounds, BUFFER_SIZE] at h
  simp only [memset, List.length_append, List.length_take, List.length_drop,
    List.length_replicate, hl]
  omega

theorem write_loop_inv (fd : Fd) (ws : List Int) :
    ∀ st : Relay, Inv st →
      Inv (write_loop fd ws st).state ∧ (write_loop fd ws st).is_out_of_fuel = false := by
  induction ws with
  | nil =>
    intro st h
    simp only [write_loop]
    split <;> exact ⟨h, rfl⟩
  | cons n rest ih =>
    intro st h
    obtain ⟨h1, h2, h3, h4⟩ := h
    simp only [write_loop]
    split
    · split
      · exact ih st ⟨h1, h2, h3, h4⟩
      · split
        · apply ih
          simp only [BUFFER_SIZE] at h3
          have m1 : Access.in_bounds (.move 0 n (st.buffer_n - n)) := by
            simp only [Access.in_bounds, BUFFER_SIZE]; omega
          have m2 : Access.in_bounds
              (.fill (st.buffer_n - n) (BUFFER_SIZE - (st.buffer_n - n))) := by
            simp only [Access.in_bounds, BUFFER_SIZE]; omega
          refine ⟨?_, ?_, ?_, ?_⟩
          · simp only [accept_buffer, accept_buffer_n]
            exact memset_length _ _ _ m2 (memmove_length _ _ _ _ m1 h1)
          · simp only [accept_buffer_n]; omega
          · simp only [accept_buffer_n, BUFFER_SIZE]; omega
          · intro a ha
            simp only [accept_trace, accept_buffer_n, List.mem_cons] at ha
            rcases ha with rfl | rfl | ha
            · exact m2
            · exact m1
            · exact h4 a ha
        · split
          · apply ih
            refine ⟨?_, ?_, ?_, ?_⟩
            · simpa using h1
            · simp
            · simp [BUFFER_SIZE]
            · simpa using h4
          · exact ⟨⟨h1, h2, h3, h4⟩, rfl⟩
    · exact ⟨⟨h1, h2, h3, h4⟩, rfl⟩

theorem find_esc_inv :
    ∀ (k : Nat) (st : Relay) (i : Int), Inv st → 0 ≤ i → i + k ≤ st.buffer_n →
      Inv (find_esc k st i) ∧ (find_esc k st i).buffer_n = st.buffer_n := by
  intro k
  induction k with
  | zero => intro st i h _ _; exact ⟨h, rfl⟩
  | succ k ih =>
    intro st i h hi hk
    obtain ⟨h1, h2, h3, h4⟩ := h
    have hinv : Inv { st with trace := .load i :: st.trace } := by
      refine ⟨h1, h2, h3, ?_⟩
      intro a ha
      simp only [List.mem_cons] at ha
      rcases ha with rfl | ha
      · simp only [Access.in_bounds]
        push_cast at hk
        omega
      · exact h4 a ha
    simp only [find_esc]
    split
    · exact ⟨hinv, rfl⟩
    · have := ih { st with trace := .load i :: st.trace } (i + 1) hinv (by omega)
        (by push_cast at hk ⊢; show i + 1 + (k : Int) ≤ st.buffer_n; omega)
      exact this

theorem strip_inv (st : Relay) (i : Int) (h : Inv st)
    (hb : 0 ≤ st.dtterm_begin) (hbi : st.dtterm_begin ≤ i) (hi : i < st.buffer_n) :
    Inv (strip st i) ∧ (strip st i).buffer_n < st.buffer_n := by
  obtain ⟨h1, h2, h3, h4⟩ := h
  simp only [BUFFER_SIZE] at h3
  have m1 : Access.in_bounds (.move st.dtterm_begin (i + 1) (st.buffer_n - (i + 1))) := by
    simp only [Access.in_bounds, BUFFER_SIZE]; omega
  have m2 : Access.in_bounds
      (.fill (st.buffer_n - (i + 1 - st.dtterm_begin))
        (BUFFER_SIZE - (st.buffer_n - (i + 1 - st.dtterm_begin)))) := by
    simp only [Access.in_bounds, BUFFER_SIZE]; omega
  refine ⟨⟨?_, ?_, ?_, ?_⟩, ?_⟩
  · simp only [strip, ioctl_set]
    exact memset_length _ _ _ m2 (memmove_length _ _ _ _ m1 h1)
  · simp only [strip, ioctl_set]; omega
  · simp only [strip, ioctl_set, BUFFER_SIZE]; omega
  · intro a ha
    simp only [strip, ioctl_set, List.mem_cons] at ha
    rcases ha with rfl | rfl | ha
    · exact m2
    · exact m1
    · exact h4 a ha
  · simp only [strip, ioctl_set]; omega

theorem parse_loop_inv :
    ∀ (k : Nat) (st : Relay) (i : Int), Inv st → 0 ≤ st.dtterm_begin →
      st.dtterm_begin ≤ i → i + k ≤ st.buffer_n →
      Inv (parse_loop k st i).2
      ∧ ((parse_loop k st i).1 = .rescan_buffer →
          (parse_loop k st i).2.buffer_n < st.buffer_n) := by
  intro k
  induction k with
  | zero =>
    intro st i h _ _ _
    exact ⟨h, fun e => by simp [parse_loop] at e⟩
  | succ k ih =>
    intro st i h hb hbi hk
    push_cast at hk
    have hinv : Inv { st with trace := .load i :: st.trace } := by
      obtain ⟨h1, h2, h3, h4⟩ := h
      refine ⟨h1, h2, h3, ?_⟩
      intro a ha
      simp only [List.mem_cons] at ha
      rcases ha with rfl | ha
      · simp only [Access.in_bounds]; omega
      · exact h4 a ha
    have hk' : i + 1 + (k : Int) ≤ st.buffer_n := by omega
    have hbi' : st.dtterm_begin ≤ i + 1 := by omega
    simp only [parse_loop]
    split
    · split
      · exact ih _ (i + 1) ⟨hinv.1, hinv.2.1, hinv.2.2.1, hinv.2.2.2⟩ hb hbi' hk'
      · exact ⟨hinv, fun e => by simp at e⟩
    · split
      · split
        · exact ih _ (i + 1) ⟨hinv.1, hinv.2.1, hinv.2.2.1, hinv.2.2.2⟩ hb hbi' hk'
        · exact ⟨hinv, fun e => by simp at e⟩
      · split
        · split
          · exact ih _ (i + 1) ⟨hinv.1, hinv.2.1, hinv.2.2.1, hinv.2.2.2⟩ hb hbi' hk'
          · exact ⟨hinv, fun e => by simp at e⟩
        · split
          · split
            · exact ⟨hinv, fun e => by simp at e⟩
            · split
              · exact ih _ (i + 1) ⟨hinv.1, hinv.2.1, hinv.2.2.1, hinv.2.2.2⟩ hb hbi' hk'
              · exact ih _ (i + 1) ⟨hinv.1, hinv.2.1, hinv.2.2.1, hinv.2.2.2⟩ hb hbi' hk'
          · split
            · split
              · have := strip_inv { st with trace := .load i :: st.trace } i hinv hb hbi
                  (by show i < st.buffer_n; omega)
                exact ⟨this.1, fun _ => this.2⟩
              · exact ⟨hinv, fun e => by simp at e⟩
            · exact ⟨hinv, fun e => by simp at e⟩

theorem ioctl_get_inv (st : Relay) (h : Inv st) :
    Inv (ioctl_get st) ∧ (ioctl_get st).buffer_n = st.buffer_n
    ∧ (ioctl_get st).dtterm_begin = st.dtterm_begin := by
  simp only [ioctl_get]
  split
  · exact ⟨h, rfl, rfl⟩
  · exact ⟨h, rfl, rfl⟩

theorem write_child_inv (ws : List Int) (st : Relay) (h : Inv st) :
    Inv (write_child ws st).state ∧ (write_child ws st).is_out_of_fuel = false :=
  write_loop_inv .child_tty ws _ h

theorem parse_loop_inv_any (st : Relay) (h : Inv st) (hb : 0 ≤ st.dtterm_begin) :
    Inv (parse_loop (st.buffer_n - st.dtterm_begin).toNat st st.dtterm_begin).2
    ∧ ((parse_loop (st.buffer_n - st.dtterm_begin).toNat st st.dtterm_begin).1
          = .rescan_buffer →
        (parse_loop (st.buffer_n - st.dtterm_begin).toNat st st.dtterm_begin).2.buffer_n
          < st.buffer_n) := by
  by_cases hle : st.dtterm_begin ≤ st.buffer_n
  · exact parse_loop_inv _ st _ h hb (le_refl _) (by omega)
  · have e : (st.buffer_n - st.dtterm_begin).toNat = 0 := by omega
    rw [e]
    exact ⟨h, fun e => by simp [parse_loop] at e⟩

theorem rescan_inv (ws : List Int) :
    ∀ (f : Nat) (st : Relay), Inv st → st.buffer_n.toNat < f →
      Inv (rescan ws f st).state ∧ (rescan ws f st).is_out_of_fuel = false := by
  intro f
  induction f with
  | zero => intro st _ hf; omega
  | succ f ih =>
    intro st h hf
    have h1 : Inv (if st.dtterm_begin = -1 then find_esc st.buffer_n.toNat st 0 else st)
        ∧ (if st.dtterm_begin = -1 then find_esc st.buffer_n.toNat st 0 else st).buffer_n
            = st.buffer_n := by
      split
      · exact find_esc_inv _ st 0 h (le_refl _) (by have := h.2.1; omega)
      · exact ⟨h, rfl⟩
    simp only [rescan]
    generalize (if st.dtterm_begin = -1 then find_esc st.buffer_n.toNat st 0 else st) = st1
      at h1 ⊢
    obtain ⟨h1, hn1⟩ := h1
    split
    · rename_i hb
      obtain ⟨g1, g2, g3⟩ := ioctl_get_inv st1 h1
      have h3 : Inv { (ioctl_get st1) with dtterm_arg := 0 } := g1
      have hp := parse_loop_inv_any { (ioctl_get st1) with dtterm_arg := 0 } h3
        (by show 0 ≤ (ioctl_get st1).dtterm_begin; rw [g3]; exact hb)
      simp only at hp
      split
      · rename_i st4 heq
        rw [heq] at hp
        apply ih st4 hp.1
        have k1 : st4.buffer_n < (ioctl_get st1).buffer_n := hp.2 rfl
        have k2 : 0 ≤ st4.buffer_n := hp.1.2.1
        omega
      · rename_i st4 heq
        rw [heq] at hp
        exact write_child_inv ws st4 hp.1
      · rename_i st4 heq
        rw [heq] at hp
        have hinv5 : Inv { st4 with trace := .load 0 :: st4.trace } := by
          obtain ⟨k1, k2, k3, k4⟩ := hp.1
          refine ⟨k1, k2, k3, ?_⟩
          intro a ha
          simp only [List.mem_cons] at ha
          rcases ha with rfl | ha
          · simp [Access.in_bounds, BUFFER_SIZE]
          · exact k4 a ha
        split
        · split
          · exact write_child_inv ws _ hinv5
          · exact ⟨hinv5, rfl⟩
        · exact ⟨hp.1, rfl⟩
    · exact write_child_inv ws st1 h1

theorem read_into_inv (st : Relay) (avail : List Nat) (h : Inv st) :
    Inv (read_into st avail).2
    ∧ Inv { (read_into st avail).2 with buffer_n := (read_into st avail).1 } := by
  obtain ⟨h1, h2, h3, h4⟩ := h
  simp only [BUFFER_SIZE] at h3
  have hl : (avail.take (BUFFER_SIZE - st.buffer_n).toNat).length ≤ 1024 := by
    simp only [List.length_take, BUFFER_SIZE]; omega
  have hb : (avail.take (BUFFER_SIZE - st.buffer_n).toNat
      ++ st.buffer.drop (avail.take (BUFFER_SIZE - st.buffer_n).toNat).length).length
      = 1024 := by
    rw [List.length_append, List.length_drop, h1]; omega
  refine ⟨⟨hb, h2, by simpa [BUFFER_SIZE] using h3, h4⟩, ⟨hb, ?_, ?_, h4⟩⟩
  · exact Int.natCast_nonneg _
  · show ((avail.take (BUFFER_SIZE - st.buffer_n).toNat).length : Int) ≤ BUFFER_SIZE
    simp only [BUFFER_SIZE] at hl ⊢
    omega

theorem pty_side_inv (st : Relay) (ev : Event) (h : Inv st) :
    Inv (pty_side st ev).state ∧ (pty_side st ev).is_out_of_fuel = false := by
  simp only [pty_side]
  split
  · exact ⟨h, rfl⟩
  · split
    · exact ⟨h, rfl⟩
    · exact ⟨h, rfl⟩
  · rename_i avail _
    split
    · exact ⟨(read_into_inv st avail h).1, rfl⟩
    · exact write_loop_inv .stdout _ _ (read_into_inv st avail h).2

theorem stdin_side_inv (st : Relay) (ev : Event) (h : Inv st) :
    Inv (stdin_side st ev).state ∧ (stdin_side st ev).is_out_of_fuel = false := by
  simp only [stdin_side]
  split
  · exact ⟨h, rfl⟩
  · split
    · exact ⟨h, rfl⟩
    · exact ⟨h, rfl⟩
  · rename_i avail _
    split
    · exact ⟨(read_into_inv st avail h).1, rfl⟩
    · exact rescan_inv _ _ _ (read_into_inv st avail h).2 (Nat.lt_succ_self _)

theorem step_inv (st : Relay) (ev : Event) (h : Inv st) :
    Inv (step st ev).state ∧ (step st ev).is_out_of_fuel = false := by
  have hp := pty_side_inv st ev h
  simp only [step]
  split
  · rename_i st1 heq
    rw [heq] at hp
    split
    · exact stdin_side_inv st1 ev hp.1
    · exact ⟨hp.1, rfl⟩
  · rename_i o hne
    exact hp

theorem run_inv (evs : List Event) :
    ∀ st : Relay, Inv st → Inv (run st evs).state ∧ (run st evs).is_out_of_fuel = false := by
  induction evs with
  | nil => intro st h; exact ⟨h, rfl⟩
  | cons ev evs ih =>
    intro st h
    have hs := step_inv st ev h
    simp only [run]
    split
    · rename_i st1 heq
      rw [heq] at hs
      exact ih st1 hs.1
    · exact hs

/-- C10: in every state the relay loop reaches from its start state with a
1024-byte buffer, whatever the readiness events and the results of `read`,
`write` and `wait4`, the logical length satisfies `0 ≤ buffer_n ≤ 1024`,
the array is still 1024 bytes long, and every access logged so far (each
index `buffer[i]` the interceptor read, each source and destination range of
a `memmove`, each range of a `memset`) lies inside the array; the bound on
the rescan jumps is never used up. -/
theorem buffer_bounds (buffer : List Nat) (console_size pty_size : Winsize)
    (child_pid : Int) (ioctl_ok : Bool) (evs : List Event)
    (hlen : buffer.length = 1024) :
    0 ≤ (run (initial buffer console_size pty_size child_pid ioctl_ok) evs).state.buffer_n
    ∧ (run (initial buffer console_size pty_size child_pid ioctl_ok) evs).state.buffer_n
        ≤ BUFFER_SIZE
    ∧ (run (initial buffer console_size pty_size child_pid ioctl_ok) evs).state.buffer.length
        = 1024
    ∧ (∀ a ∈ (run (initial buffer console_size pty_size child_pid ioctl_ok) evs).state.trace,
        a.in_bounds)
    ∧ (run (initial buffer console_size pty_size child_pid ioctl_ok) evs).is_out_of_fuel
        = false := by
  have h0 : Inv (initial buffer console_size pty_size child_pid ioctl_ok) :=
    ⟨hlen, le_refl _, by simp [initial, BUFFER_SIZE], fun a ha => by simp [initial] at ha⟩
  obtain ⟨⟨h1, h2, h3, h4⟩, h5⟩ := run_inv evs _ h0
  exact ⟨h2, h3, h1, h4, h5⟩

/-! ## Concrete runs -/

set_option maxRecDepth 100000 in
/-- A run in which the start offset 4 found in a six-byte read is carried
over into a one-byte buffer. -/
theorem buffer_bounds_witness :
    (run boot [stdin_event [65, 65, 65, 65, 27, 91] [], both_event [120] [56] []]).state.buffer_n
      ≤ BUFFER_SIZE
    ∧ (run boot
        [stdin_event [65, 65, 65, 65, 27, 91] [], both_event [120] [56] []]).state.buffer.length
      = 1024
    ∧ (run boot
        [stdin_event [65, 65, 65, 65, 27, 91] [], both_event [120] [56] []]).is_out_of_fuel
      = false :=
  have h := buffer_bounds (List.replicate 1024 0) ⟨0, 0, 0, 0⟩ ⟨24, 80, 0, 0⟩ 4242 true
    [stdin_event [65, 65, 65, 65, 27, 91] [], both_event [120] [56] []]
    (List.length_replicate 1024 0)
  ⟨h.2.1, h.2.2.1, h.2.2.2.2⟩

set_option maxRecDepth 100000 in
/-- C1 as it stands does not hold.  With `A = ESC x` and `B` empty (no resize
sequence in either) the iteration ends normally, yet the child receives the
whole chunk, resize sequence included, instead of `A ++ B`, and no geometry
is requested.  With `A` empty and `B = x ESC` the sequence is stripped, but
the child receives nothing in this iteration instead of `B`. -/
theorem escape_around_sequence_defeats_stripping :
    ((step boot (stdin_event ([27, 120] ++ resize_seq [50, 52] [56, 48] ++ []) [12])).is_running
        = true
      ∧ (step boot (stdin_event ([27, 120] ++ resize_seq [50, 52] [56, 48] ++ []) [12])).state.to_child
        = [27, 120, 27, 91, 56, 59, 50, 52, 59, 56, 48, 116]
      ∧ (step boot (stdin_event ([27, 120] ++ resize_seq [50, 52] [56, 48] ++ []) [12])).state.to_child
        ≠ [27, 120] ++ []
      ∧ (step boot (stdin_event ([27, 120] ++ resize_seq [50, 52] [56, 48] ++ []) [12])).state.resizes
        = [])
    ∧ ((step boot (stdin_event ([] ++ resize_seq [50, 52] [56, 48] ++ [120, 27]) [2])).is_running
        = true
      ∧ (step boot (stdin_event ([] ++ resize_seq [50, 52] [56, 48] ++ [120, 27]) [2])).state.to_child
        = []
      ∧ (step boot (stdin_event ([] ++ resize_seq [50, 52] [56, 48] ++ [120, 27]) [2])).state.to_child
        ≠ [] ++ [120, 27]) := by
  decide

set_option maxRecDepth 100000 in
/-- C5: the chunk `ESC ; 8 ; 1 ; 1 t` has no `[` byte at all, and the chunk
`ESC 0 [ 8 ; 1 ; 1 t` has no `[` right after ESC, yet the interceptor strips
each of them whole and requests the geometry 1 by 1. -/
theorem other_patterns_intercepted :
    (91 ∉ [27, 59, 56, 59, 49, 59, 49, 116]
      ∧ (step boot (stdin_event [27, 59, 56, 59, 49, 59, 49, 116] [8])).is_running = true
      ∧ (step boot (stdin_event [27, 59, 56, 59, 49, 59, 49, 116] [8])).state.to_child = []
      ∧ (step boot (stdin_event [27, 59, 56, 59, 49, 59, 49, 116] [8])).state.resizes
          = [(1, 1)])
    ∧ ((step boot (stdin_event [27, 48, 91, 56, 59, 49, 59, 49, 116] [9])).is_running = true
      ∧ (step boot (stdin_event [27, 48, 91, 56, 59, 49, 59, 49, 116] [9])).state.to_child = []
      ∧ (step boot (stdin_event [27, 48, 91, 56, 59, 49, 59, 49, 116] [9])).state.resizes
          = [(1, 1)]) := by
  decide

set_option maxRecDepth 100000 in
/-- C9: after an iteration in which the interceptor held `ESC [`, the next
iteration with an unreadable pty reaches `assert (buffer_n == 0)` with
`buffer_n = 2`. -/
theorem assertion_fails_after_hold :
    (step boot (stdin_event [27, 91] [])).is_running = true
    ∧ (step boot (stdin_event [27, 91] [])).state.buffer_n = 2
    ∧ (run boot [stdin_event [27, 91] [], stdin_event [56] []]).is_assert_failed = true
    ∧ (run boot [stdin_event [27, 91] [], stdin_event [56] []]).state.buffer_n = 2 := by
  decide

set_option maxRecDepth 100000 in
/-- C4: the sequence `ESC[8;24;80t` split as `ESC[8;24` and `;80t`.  In two
consecutive reads of external input the first iteration holds the six bytes
and the second one fails the assertion with them still counted.  When pty
output comes in between, the second part is parsed with `dtterm_arg`
restarted at 0 and the geometry requested is 0 rows by 80 columns.  Read
whole, the same bytes request 24 by 80. -/
theorem split_delivery_fails :
    ((run boot [stdin_event [27, 91, 56, 59, 50, 52] [],
        stdin_event [59, 56, 48, 116] []]).is_assert_failed = true
      ∧ (run boot [stdin_event [27, 91, 56, 59, 50, 52] [],
        stdin_event [59, 56, 48, 116] []]).state.buffer_n = 6
      ∧ (run boot [stdin_event [27, 91, 56, 59, 50, 52] [],
        stdin_event [59, 56, 48, 116] []]).state.resizes = [])
    ∧ ((run boot [stdin_event [27, 91, 56, 59, 50, 52] [],
        both_event [120] [59, 56, 48, 116] []]).is_running = true
      ∧ (run boot [stdin_event [27, 91, 56, 59, 50, 52] [],
        both_event [120] [59, 56, 48, 116] []]).state.resizes = [(0, 80)])
    ∧ (run boot [stdin_event [27, 91, 56, 59, 50, 52, 59, 56, 48, 116] []]).state.resizes
        = [(24, 80)] := by
  decide

set_option maxRecDepth 100000 in
/-- C3: `do_exit` hands the raw wait status to `exit`, so a child that ends
normally with code 1 makes the relay end with code 0 (shown on `do_exit` and
on a loop iteration that sees end of file on the pty), as does every other
normal exit code of the child; a failed `wait4` gives code 255. -/
theorem exit_status_is_raw :
    exit_code (do_exit 4242 4242 (W_EXITCODE 1)) = 0
    ∧ (step boot (eof_event 4242 (W_EXITCODE 1))).observed_exit = some 0
    ∧ (∀ pid c : Int, exit_code (do_exit pid pid (W_EXITCODE c)) = 0)
    ∧ (∀ pid rc status : Int, rc ≠ pid → exit_code (do_exit pid rc status) = 255) := by
  refine ⟨by decide, by decide, ?_, ?_⟩
  · intro pid c
    simp [exit_code, do_exit, W_EXITCODE]
  · intro pid rc status h
    simp [exit_code, do_exit, h]

end Ptypipe
